import Mathlib

/-!
Verification of the LilyPad relay server and client against its specification.

This file gives a shallow embedding, in Lean 4, of the parts of the LilyPad
code base that the specification's claims are about:

* the server relay queue and its drop policy (`enqueue_relay`,
  src/server/main.cpp),
* the screen relay drain cycle (`screen_relay_loop`, src/server/main.cpp),
* the UDP voice relay (`udp_relay_loop`, src/server/main.cpp),
* the per-IP auth rate limiter (`check_rate_limit` / `record_auth_failure`,
  src/server/main.cpp),
* the auth store (`AuthDB::validate_token`, `AuthDB::change_password`,
  `AuthDB::invalidate_all_sessions`, src/server/auth_db.cpp),
* the per-peer jitter buffer (src/client/network_threads.cpp,
  src/client/app_state.h),
* the chat record codec (src/common/chat_persistence.h) and the server's
  chat-history loader (`load_chat_history`, src/server/main.cpp),
* the SCREEN_SUBSCRIBE handler (`client_read_loop`, src/server/main.cpp).

Byte strings are modelled as `List Nat` (each entry a byte value), C++
`std::string` as `List Char`, machine integers as `Nat`/`Int` with explicit
wrap-around where the C++ arithmetic can overflow.  Cryptographic primitives
(SHA-256 of tokens, Argon2id password hashes) are black boxes in the spec and
are modelled as opaque injective constructors.
-/

/-! ## Wire helpers (src/common/protocol.h) -/

/-- `read_u32` of src/common/protocol.h: little-endian u32 at the start of a
byte buffer (`data[0] | data[1] << 8 | data[2] << 16 | data[3] << 24`). -/
def read_u32 (data : List Nat) : Nat :=
  data.getD 0 0 + data.getD 1 0 * 2 ^ 8 + data.getD 2 0 * 2 ^ 16 + data.getD 3 0 * 2 ^ 24

/-- `VOICE_HEADER_SIZE` of src/common/protocol.h. -/
def VOICE_HEADER_SIZE : Nat := 8

/-! ## Server relay queue (src/server/main.cpp, `RelayItem` / `enqueue_relay`)

`RelayItem` carries the outbound message bytes plus the originating sharer id
and the two tags `is_audio` and `is_keyframe` (fields named `audio` and
`keyframe` here). -/

structure RelayItem where
  data : List Nat
  sharer_id : Nat
  audio : Bool
  keyframe : Bool
deriving DecidableEq, Repr

/-- An item the enqueue drop policy may remove: neither audio nor keyframe. -/
def droppable (it : RelayItem) : Bool := !it.audio && !it.keyframe

/-- One pass of the inner `for` loop of `enqueue_relay`: erase the first
(oldest) item that is neither audio nor keyframe; `none` when no such item
exists (`dropped == false`). -/
def drop_first_droppable : List RelayItem → Option (List RelayItem)
  | [] => none
  | it :: rest =>
    if droppable it then some rest
    else (drop_first_droppable rest).map (it :: ·)

theorem drop_first_droppable_length {q q' : List RelayItem}
    (h : drop_first_droppable q = some q') : q'.length + 1 = q.length := by
  induction q generalizing q' with
  | nil => simp [drop_first_droppable] at h
  | cons it rest ih =>
    by_cases hd : droppable it
    · simp [drop_first_droppable, hd] at h
      simp [← h]
    · simp [drop_first_droppable, hd] at h
      obtain ⟨r, hr, hq'⟩ := h
      simp [← hq', ih hr]

/-- The `while (g_relay_queue.size() > 60)` loop of `enqueue_relay`: drop the
oldest droppable item while the queue is over capacity, stopping when none
remains. -/
def drop_over_limit (q : List RelayItem) : List RelayItem :=
  if q.length > 60 then
    match h : drop_first_droppable q with
    | some q' => drop_over_limit q'
    | none => q
  else q
termination_by q.length
decreasing_by
  have := drop_first_droppable_length h
  omega

/-- `enqueue_relay` of src/server/main.cpp: push the new item at the back,
then run the bounded-depth drop policy. -/
def enqueue_relay (q : List RelayItem) (item : RelayItem) : List RelayItem :=
  drop_over_limit (q ++ [item])

/-! ## Per-peer jitter buffer (src/client/app_state.h, network_threads.cpp)

The buffer's frame payloads are opaque to the push/pop logic, so frames are a
type parameter. -/

/-- `JitterBuffer::MAX_DEPTH` (src/client/app_state.h). -/
def MAX_DEPTH : Nat := 4

/-- `JitterBuffer::PRE_BUFFER` (src/client/app_state.h). -/
def PRE_BUFFER : Nat := 2

structure JitterBuffer (α : Type) where
  frames : List α
  primed : Bool
deriving DecidableEq, Repr

/-- The `while (jb.frames.size() > JitterBuffer::MAX_DEPTH) pop_front()` loop
of `udp_receive_thread_func`. -/
def jb_drop_over {α : Type} (fs : List α) : List α :=
  if fs.length > MAX_DEPTH then jb_drop_over fs.tail else fs
termination_by fs.length
decreasing_by
  rename_i h
  cases fs with
  | nil => simp at h
  | cons a l => simp

/-- The push step of `udp_receive_thread_func`: append the decoded frame, then
discard from the front while over `MAX_DEPTH`. -/
def jb_push {α : Type} (jb : JitterBuffer α) (f : α) : JitterBuffer α :=
  { jb with frames := jb_drop_over (jb.frames ++ [f]) }

/-- What one playback cycle obtains from one jitter buffer
(`audio_playback_thread_func`): a real frame, one PLC frame, or nothing
(silence contribution while pre-buffering). -/
inductive PopResult (α : Type) where
  | silence
  | frame (f : α)
  | plc
deriving DecidableEq, Repr

/-- The per-buffer pop of `audio_playback_thread_func`: if not primed and
below `PRE_BUFFER`, keep buffering (silence); otherwise (priming the buffer if
needed) return the front frame, or a PLC frame — clearing `primed` — when the
buffer has underrun. -/
def jb_pop {α : Type} (jb : JitterBuffer α) : JitterBuffer α × PopResult α :=
  if jb.primed = false ∧ jb.frames.length < PRE_BUFFER then (jb, .silence)
  else
    match jb.frames with
    | f :: rest => (⟨rest, true⟩, .frame f)
    | [] => (⟨[], false⟩, .plc)

/-! ## Theorems for claim C5 (relay queue drop policy) -/

theorem drop_first_droppable_none {q : List RelayItem}
    (h : drop_first_droppable q = none) : ∀ it ∈ q, droppable it = false := by
  induction q with
  | nil => simp
  | cons it rest ih =>
    by_cases hd : droppable it
    · simp [drop_first_droppable, hd] at h
    · simp [drop_first_droppable, hd] at h
      intro x hx
      rcases List.mem_cons.mp hx with hx | hx
      · simpa [hx] using hd
      · exact ih h x hx

theorem drop_first_droppable_filter_protected {q q' : List RelayItem}
    (h : drop_first_droppable q = some q') :
    q'.filter (fun it => !droppable it) = q.filter (fun it => !droppable it) := by
  induction q generalizing q' with
  | nil => simp [drop_first_droppable] at h
  | cons it rest ih =>
    by_cases hd : droppable it
    · simp [drop_first_droppable, hd] at h
      simp [← h, List.filter_cons, hd]
    · simp [drop_first_droppable, hd] at h
      obtain ⟨r, hr, hq'⟩ := h
      simp [← hq', List.filter_cons, hd, ih hr]

theorem drop_first_droppable_filter_droppable {q q' : List RelayItem}
    (h : drop_first_droppable q = some q') :
    q'.filter droppable = (q.filter droppable).tail := by
  induction q generalizing q' with
  | nil => simp [drop_first_droppable] at h
  | cons it rest ih =>
    by_cases hd : droppable it
    · simp [drop_first_droppable, hd] at h
      simp [← h, List.filter_cons, hd]
    · simp [drop_first_droppable, hd] at h
      obtain ⟨r, hr, hq'⟩ := h
      simp [← hq', List.filter_cons, hd, ih hr]

theorem drop_first_droppable_sublist {q q' : List RelayItem}
    (h : drop_first_droppable q = some q') : q'.Sublist q := by
  induction q generalizing q' with
  | nil => simp [drop_first_droppable] at h
  | cons it rest ih =>
    by_cases hd : droppable it
    · simp [drop_first_droppable, hd] at h
      exact h ▸ List.sublist_cons_self it rest
    · simp [drop_first_droppable, hd] at h
      obtain ⟨r, hr, hq'⟩ := h
      exact hq' ▸ (ih hr).cons₂ it

theorem drop_over_limit_of_some {q q' : List RelayItem} (hx : 60 < q.length)
    (h : drop_first_droppable q = some q') : drop_over_limit q = drop_over_limit q' := by
  rw [drop_over_limit]
  rw [if_pos hx]
  split
  · rename_i r hr
    rw [h] at hr
    cases hr
    rfl
  · rename_i hr
    rw [h] at hr
    cases hr

theorem drop_over_limit_of_none {q : List RelayItem}
    (h : drop_first_droppable q = none) : drop_over_limit q = q := by
  rw [drop_over_limit]
  split
  · split
    · rename_i r hr
      rw [h] at hr
      cases hr
    · rfl
  · rfl

theorem drop_over_limit_of_le {q : List RelayItem} (hx : ¬ 60 < q.length) :
    drop_over_limit q = q := by
  rw [drop_over_limit]
  rw [if_neg hx]

theorem drop_over_limit_protected (q : List RelayItem) :
    (drop_over_limit q).filter (fun it => !droppable it)
      = q.filter (fun it => !droppable it) := by
  induction q using drop_over_limit.induct with
  | case1 x hx q' hq' ih =>
    rw [drop_over_limit_of_some hx hq', ih, drop_first_droppable_filter_protected hq']
  | case2 x hx hn => rw [drop_over_limit_of_none hn]
  | case3 x hx => rw [drop_over_limit_of_le hx]

theorem drop_over_limit_droppable_drop (q : List RelayItem) :
    ∃ k, (drop_over_limit q).filter droppable = (q.filter droppable).drop k := by
  induction q using drop_over_limit.induct with
  | case1 x hx q' hq' ih =>
    obtain ⟨k, hk⟩ := ih
    refine ⟨k + 1, ?_⟩
    rw [drop_over_limit_of_some hx hq', hk, drop_first_droppable_filter_droppable hq',
      ← List.drop_one]
    simp only [List.drop_drop]
    congr 1
    omega
  | case2 x hx hn => exact ⟨0, by rw [drop_over_limit_of_none hn, List.drop_zero]⟩
  | case3 x hx => exact ⟨0, by rw [drop_over_limit_of_le hx, List.drop_zero]⟩

theorem drop_over_limit_sublist (q : List RelayItem) :
    (drop_over_limit q).Sublist q := by
  induction q using drop_over_limit.induct with
  | case1 x hx q' hq' ih =>
    rw [drop_over_limit_of_some hx hq']
    exact ih.trans (drop_first_droppable_sublist hq')
  | case2 x hx hn => rw [drop_over_limit_of_none hn]
  | case3 x hx => rw [drop_over_limit_of_le hx]

theorem drop_over_limit_over (q : List RelayItem) :
    60 < (drop_over_limit q).length → ∀ it ∈ drop_over_limit q, droppable it = false := by
  induction q using drop_over_limit.induct with
  | case1 x hx q' hq' ih => rw [drop_over_limit_of_some hx hq']; exact ih
  | case2 x hx hn =>
    rw [drop_over_limit_of_none hn]
    intro _
    exact drop_first_droppable_none hn
  | case3 x hx =>
    rw [drop_over_limit_of_le hx]
    intro h
    omega

theorem drop_over_limit_ge (q : List RelayItem) :
    60 ≤ q.length → 60 ≤ (drop_over_limit q).length := by
  induction q using drop_over_limit.induct with
  | case1 x hx q' hq' ih =>
    intro _
    rw [drop_over_limit_of_some hx hq']
    have := drop_first_droppable_length hq'
    exact ih (by omega)
  | case2 x hx hn =>
    intro h
    rw [drop_over_limit_of_none hn]
    exact h
  | case3 x hx =>
    intro h
    rw [drop_over_limit_of_le hx]
    exact h

/-- C5: after every `enqueue_relay`, audio and keyframe items are never removed
(the non-droppable sublist is exactly that of the queue with the new item
appended); removed items are the oldest non-audio non-keyframe ones (the
remaining droppable items are a tail segment of the original droppable items);
nothing is removed while the depth is at most 60 and the depth is never cut
below 60; and the queue exceeds depth 60 only when every item in it is audio
or a keyframe. -/
theorem enqueue_relay_drop_policy (q : List RelayItem) (item : RelayItem) :
    (enqueue_relay q item).filter (fun it => !droppable it)
        = (q ++ [item]).filter (fun it => !droppable it)
    ∧ (∃ k, (enqueue_relay q item).filter droppable
        = ((q ++ [item]).filter droppable).drop k)
    ∧ (enqueue_relay q item).Sublist (q ++ [item])
    ∧ ((q ++ [item]).length ≤ 60 → enqueue_relay q item = q ++ [item])
    ∧ (60 ≤ (q ++ [item]).length → 60 ≤ (enqueue_relay q item).length)
    ∧ (60 < (enqueue_relay q item).length →
        ∀ it ∈ enqueue_relay q item, it.audio = true ∨ it.keyframe = true) := by
  refine ⟨drop_over_limit_protected _, drop_over_limit_droppable_drop _,
    drop_over_limit_sublist _, fun h => drop_over_limit_of_le (by omega),
    drop_over_limit_ge _, fun h it hit => ?_⟩
  have := drop_over_limit_over (q ++ [item]) h it hit
  simp only [droppable, Bool.and_eq_false_iff, Bool.not_eq_false'] at this
  rcases this with h1 | h1
  · exact Or.inl h1
  · exact Or.inr h1

/-- C5 witness: with one audio item queued, enqueueing a droppable video item
below capacity removes nothing. -/
theorem enqueue_relay_drop_policy_witness :
    enqueue_relay [⟨[1], 1, true, false⟩] ⟨[2], 1, false, false⟩
      = [⟨[1], 1, true, false⟩, ⟨[2], 1, false, false⟩] :=
  (enqueue_relay_drop_policy [⟨[1], 1, true, false⟩] ⟨[2], 1, false, false⟩).2.2.2.1
    (by decide)

/-! ## Theorems for claim C6 (jitter buffer) -/

theorem jb_drop_over_of_le {α : Type} {fs : List α} (h : ¬ fs.length > MAX_DEPTH) :
    jb_drop_over fs = fs := by
  rw [jb_drop_over]
  rw [if_neg h]

theorem jb_drop_over_of_gt {α : Type} {fs : List α} (h : fs.length > MAX_DEPTH) :
    jb_drop_over fs = jb_drop_over fs.tail := by
  rw [jb_drop_over]
  rw [if_pos h]

theorem jb_drop_over_length {α : Type} (fs : List α) :
    (jb_drop_over fs).length ≤ MAX_DEPTH := by
  induction fs using jb_drop_over.induct with
  | case1 x hx ih => rw [jb_drop_over_of_gt hx]; exact ih
  | case2 x hx => rw [jb_drop_over_of_le hx]; omega

theorem jb_drop_over_drop {α : Type} (fs : List α) :
    ∃ k, jb_drop_over fs = fs.drop k := by
  induction fs using jb_drop_over.induct with
  | case1 x hx ih =>
    obtain ⟨k, hk⟩ := ih
    refine ⟨k + 1, ?_⟩
    rw [jb_drop_over_of_gt hx, hk, ← List.drop_one]
    simp only [List.drop_drop]
    congr 1
    omega
  | case2 x hx => exact ⟨0, by rw [jb_drop_over_of_le hx, List.drop_zero]⟩

/-- C6: the per-peer jitter buffer contract.  After every push the queue holds
at most `MAX_DEPTH = 4` frames and any discarded frames are the oldest ones
(the remaining frames are a tail segment of the appended queue); pushing onto
a full buffer drops exactly the front frame.  A pop on an unprimed buffer with
at least `PRE_BUFFER = 2` frames flips it to primed and returns the front
frame; an unprimed buffer with fewer than 2 frames contributes silence
unchanged; a pop on a primed empty buffer yields one PLC frame and clears
`primed`. -/
theorem jitter_buffer_contract {α : Type} (jb : JitterBuffer α) (f : α) :
    ((jb_push jb f).frames.length ≤ MAX_DEPTH
      ∧ ∃ k, (jb_push jb f).frames = (jb.frames ++ [f]).drop k)
    ∧ (jb.frames.length = MAX_DEPTH →
        (jb_push jb f).frames = jb.frames.tail ++ [f])
    ∧ (jb.primed = false → PRE_BUFFER ≤ jb.frames.length →
        ∃ g rest, jb.frames = g :: rest
          ∧ jb_pop jb = (⟨rest, true⟩, PopResult.frame g))
    ∧ (jb.primed = false → jb.frames.length < PRE_BUFFER →
        jb_pop jb = (jb, PopResult.silence))
    ∧ (jb.primed = true → jb.frames = [] →
        jb_pop jb = (⟨[], false⟩, PopResult.plc)) := by
  refine ⟨⟨jb_drop_over_length _, jb_drop_over_drop _⟩, ?_, ?_, ?_, ?_⟩
  · intro h4
    show jb_drop_over (jb.frames ++ [f]) = jb.frames.tail ++ [f]
    have hlen : (jb.frames ++ [f]).length > MAX_DEPTH := by
      simp [h4]
    rw [jb_drop_over_of_gt hlen]
    have htl : (jb.frames ++ [f]).tail = jb.frames.tail ++ [f] := by
      cases hfr : jb.frames with
      | nil => rw [hfr] at h4; simp [MAX_DEPTH] at h4
      | cons a l => simp
    rw [htl]
    apply jb_drop_over_of_le
    cases hfr : jb.frames with
    | nil => rw [hfr] at h4; simp [MAX_DEPTH] at h4
    | cons a l =>
      rw [hfr] at h4
      simp at h4 ⊢
      simp [MAX_DEPTH] at h4 ⊢
      omega
  · intro hp hlen
    cases hfr : jb.frames with
    | nil => rw [hfr] at hlen; simp [PRE_BUFFER] at hlen
    | cons g rest =>
      refine ⟨g, rest, rfl, ?_⟩
      rw [jb_pop, if_neg]
      · rw [hfr]
      · intro hc
        exact absurd hlen (not_le.mpr hc.2)
  · intro hp hlen
    rw [jb_pop, if_pos ⟨hp, hlen⟩]
  · intro hp hemp
    rw [jb_pop, if_neg, hemp]
    rw [hp]
    simp

/-- C6 witness: an unprimed buffer holding exactly two frames flips to primed
and yields its front frame on pop. -/
theorem jitter_buffer_contract_witness :
    ∃ g rest, ([10, 20] : List Nat) = g :: rest
      ∧ jb_pop ⟨[10, 20], false⟩ = (⟨rest, true⟩, PopResult.frame g) :=
  (jitter_buffer_contract ⟨[10, 20], false⟩ 0).2.2.1 rfl (by decide)

/-! ## Auth rate limiter (src/server/main.cpp)

The server keeps one `RateLimitEntry` per source IP in `g_rate_limits`; the
claims are per-address, so the entry's evolution is modelled directly.  The
monotonic clock is modelled as seconds (`Nat`); a fresh entry is
default-constructed as `⟨0, 0⟩` (failures 0, epoch window start). -/

structure RateLimitEntry where
  failures : Nat
  window_start : Nat
deriving DecidableEq, Repr

def RATE_LIMIT_MAX_FAILURES : Nat := 5

def RATE_LIMIT_WINDOW_SECS : Nat := 60

/-- The shared prelude of `check_rate_limit` and `record_auth_failure`: when
at least `RATE_LIMIT_WINDOW_SECS` have elapsed since `window_start`, zero the
failure count and restart the window at `now`. -/
def rl_roll (e : RateLimitEntry) (now : Nat) : RateLimitEntry :=
  if RATE_LIMIT_WINDOW_SECS ≤ now - e.window_start then ⟨0, now⟩ else e

/-- `check_rate_limit` of src/server/main.cpp: roll the window, then allow the
attempt iff fewer than `RATE_LIMIT_MAX_FAILURES` failures are recorded. -/
def check_rate_limit (e : RateLimitEntry) (now : Nat) : RateLimitEntry × Bool :=
  (rl_roll e now, (rl_roll e now).failures < RATE_LIMIT_MAX_FAILURES)

/-- `record_auth_failure` of src/server/main.cpp: roll the window, then count
one more failure. -/
def record_auth_failure (e : RateLimitEntry) (now : Nat) : RateLimitEntry :=
  ⟨(rl_roll e now).failures + 1, (rl_roll e now).window_start⟩

/-- One auth attempt from one source address, as the `AUTH_LOGIN_REQ` /
`AUTH_TOKEN_LOGIN_REQ` handlers of `tcp_accept_loop` drive the limiter:
`check_rate_limit` first; when the attempt is allowed and the credentials are
bad, `record_auth_failure`.  Returns the entry and whether the attempt passed
the limiter. -/
def auth_attempt (e : RateLimitEntry) (now : Nat) (credsOk : Bool) : RateLimitEntry × Bool :=
  if (check_rate_limit e now).2 then
    if credsOk then ((check_rate_limit e now).1, true)
    else (record_auth_failure (check_rate_limit e now).1 now, true)
  else ((check_rate_limit e now).1, false)

/-! ## Theorems for claim C9 (auth rate limiter) -/

/-- C9 counterexample: the limiter's window is fixed, not sliding.  Six failed
attempts from one (fresh) address at seconds 100, 110, 120, 130, 161, 162: the
last five failures all fall within 52 s of each other, yet the next attempt at
second 163 is still allowed, because the recorded window restarted at second
161 (the check at 161 saw 61 s elapsed since the window started at 100 and
reset the count).  A sliding 60-second window would reject the attempt at 163
after 5 failures in the preceding 60 s. -/
theorem check_rate_limit_not_sliding :
    auth_attempt ⟨0, 0⟩ 100 false = (⟨1, 100⟩, true)
    ∧ auth_attempt ⟨1, 100⟩ 110 false = (⟨2, 100⟩, true)
    ∧ auth_attempt ⟨2, 100⟩ 120 false = (⟨3, 100⟩, true)
    ∧ auth_attempt ⟨3, 100⟩ 130 false = (⟨4, 100⟩, true)
    ∧ auth_attempt ⟨4, 100⟩ 161 false = (⟨1, 161⟩, true)
    ∧ auth_attempt ⟨1, 161⟩ 162 false = (⟨2, 161⟩, true)
    ∧ (check_rate_limit ⟨2, 161⟩ 163).2 = true
    ∧ 162 - 110 ≤ 60 := by decide

/-- C9 amended: the limiter keeps, per source address, a failure count in a
fixed 60-second window anchored at `window_start`.  An auth attempt is
rejected iff the window is still current and at least 5 failures are recorded
in it; a failure inside the current window increments the count (a failure
after the window elapsed starts a new window with count 1); a successful login
does not reset the count (it only rolls the window like any other access); and
once 60 s have elapsed since `window_start` the counter resets, so auth is
allowed again. -/
theorem check_rate_limit_fixed_window (e : RateLimitEntry) (now : Nat) :
    ((check_rate_limit e now).2 = false ↔
      (now - e.window_start < RATE_LIMIT_WINDOW_SECS
        ∧ RATE_LIMIT_MAX_FAILURES ≤ e.failures))
    ∧ (check_rate_limit e now).1 = rl_roll e now
    ∧ (now - e.window_start < RATE_LIMIT_WINDOW_SECS →
        record_auth_failure e now = ⟨e.failures + 1, e.window_start⟩)
    ∧ (RATE_LIMIT_WINDOW_SECS ≤ now - e.window_start →
        record_auth_failure e now = ⟨1, now⟩)
    ∧ (RATE_LIMIT_WINDOW_SECS ≤ now - e.window_start →
        (check_rate_limit e now).2 = true)
    ∧ (auth_attempt e now true).1 = rl_roll e now := by
  refine ⟨?_, rfl, ?_, ?_, ?_, ?_⟩
  · simp only [check_rate_limit, rl_roll, RATE_LIMIT_WINDOW_SECS, RATE_LIMIT_MAX_FAILURES]
    by_cases hw : 60 ≤ now - e.window_start <;> simp [hw] <;> omega
  · intro h
    have hw : ¬ RATE_LIMIT_WINDOW_SECS ≤ now - e.window_start := by omega
    simp [record_auth_failure, rl_roll, hw]
  · intro h
    simp [record_auth_failure, rl_roll, h]
  · intro h
    simp [check_rate_limit, rl_roll, h, RATE_LIMIT_MAX_FAILURES]
  · unfold auth_attempt
    split <;> rfl

/-- C9 witness: an address with 5 recorded failures in a still-current window
is rejected. -/
theorem check_rate_limit_fixed_window_witness :
    (check_rate_limit ⟨5, 100⟩ 120).2 = false :=
  (check_rate_limit_fixed_window ⟨5, 100⟩ 120).1.mpr (by decide)

/-! ## Server client table (src/server/main.cpp, `ClientInfo` / `g_clients`)

`g_clients` is a map keyed by client id; it is modelled as a list of records
(with pairwise-distinct ids where a claim needs it), looked up with `find?`. -/

structure ClientInfo where
  id : Nat
  username : List Char
  udp_addr : Nat
  udp_known : Bool
  in_voice : Bool
  screen_sharing : Bool
  screen_subscribers : List Nat
  cached_keyframe : List Nat
deriving DecidableEq, Repr

/-! ## SCREEN_SUBSCRIBE handler (src/server/main.cpp, `client_read_loop`) -/

/-- What the SCREEN_SUBSCRIBE handler may send: the sharer's cached keyframe
message to the subscriber, or SCREEN_REQUEST_KEYFRAME to the sharer. -/
inductive ServerSend where
  | cached (bytes : List Nat)
  | request_keyframe
deriving DecidableEq, Repr

/-- `screen_subscribers.insert(id)` on a set: add if absent. -/
def add_subscriber (caller : Nat) (c : ClientInfo) : ClientInfo :=
  { c with screen_subscribers :=
      if caller ∈ c.screen_subscribers then c.screen_subscribers
      else c.screen_subscribers ++ [caller] }

/-- The SCREEN_SUBSCRIBE branch of `client_read_loop`: look up the target; if
present and sharing, add the caller to its subscriber set, then send the
cached keyframe to the caller if one exists, else ask the sharer for a
keyframe.  Returns the new client table and the messages sent, tagged with the
recipient's client id. -/
def screen_subscribe (clients : List ClientInfo) (caller tid : Nat) :
    List ClientInfo × List (Nat × ServerSend) :=
  match clients.find? (fun c => c.id == tid) with
  | none => (clients, [])
  | some t =>
    if t.screen_sharing then
      let clients' := clients.map (fun c => if c.id == tid then add_subscriber caller c else c)
      match clients'.find? (fun c => c.id == caller) with
      | none => (clients', [])
      | some _ =>
        if t.cached_keyframe.isEmpty then (clients', [(tid, ServerSend.request_keyframe)])
        else (clients', [(caller, ServerSend.cached t.cached_keyframe)])
    else (clients, [])

/-- C10: on SCREEN_SUBSCRIBE(tid) from caller C, if no client with id tid is
present, or that client is not sharing, the table is unchanged and nothing is
sent; when tid is present and sharing, the only table change is adding C to
tid's subscriber set; and any change at all implies tid was present and
sharing. -/
theorem screen_subscribe_guard (clients : List ClientInfo) (caller tid : Nat) :
    (clients.find? (fun c => c.id == tid) = none →
      screen_subscribe clients caller tid = (clients, []))
    ∧ (∀ t, clients.find? (fun c => c.id == tid) = some t → t.screen_sharing = false →
        screen_subscribe clients caller tid = (clients, []))
    ∧ (∀ t, clients.find? (fun c => c.id == tid) = some t → t.screen_sharing = true →
        (screen_subscribe clients caller tid).1
          = clients.map (fun c => if c.id == tid then add_subscriber caller c else c))
    ∧ ((screen_subscribe clients caller tid).1 ≠ clients
          ∨ (screen_subscribe clients caller tid).2 ≠ [] →
        ∃ t, clients.find? (fun c => c.id == tid) = some t ∧ t.screen_sharing = true) := by
  refine ⟨?_, ?_, ?_, ?_⟩
  · intro hf
    simp [screen_subscribe, hf]
  · intro t hf hs
    simp [screen_subscribe, hf, hs]
  · intro t hf hs
    unfold screen_subscribe
    rw [hf]
    simp only [hs, if_true]
    rcases hfc : (clients.map (fun c => if c.id == tid then add_subscriber caller c else c)).find?
        (fun c => c.id == caller) with _ | c <;> rw [hfc]
    split <;> first | rfl | (split <;> rfl)
  · intro hchange
    rcases hf : clients.find? (fun c => c.id == tid) with _ | t
    · simp [screen_subscribe, hf] at hchange
    · by_cases hs : t.screen_sharing
      · exact ⟨t, hf, hs⟩
      · simp [screen_subscribe, hf, hs] at hchange

/-- C10 witness: subscribing to a present, sharing client with an empty
keyframe cache adds the caller to the subscriber set. -/
theorem screen_subscribe_guard_witness :
    (screen_subscribe [⟨2, [], 0, false, false, true, [], []⟩] 7 2).1
      = List.map (fun c => if c.id == 2 then add_subscriber 7 c else c)
          [⟨2, [], 0, false, false, true, [], []⟩] :=
  (screen_subscribe_guard [⟨2, [], 0, false, false, true, [], []⟩] 7 2).2.2.1
    ⟨2, [], 0, false, false, true, [], []⟩ (by decide) rfl

/-! ## UDP voice relay (src/server/main.cpp, `udp_relay_loop`) -/

/-- The sender-record update of `udp_relay_loop`: learn the source address on
the first packet, ignore address changes afterwards. -/
def learn_addr (sender_addr : Nat) (c : ClientInfo) : ClientInfo :=
  if c.udp_known then c else { c with udp_addr := sender_addr, udp_known := true }

/-- One iteration of `udp_relay_loop` on a received datagram, with the bytes
`dgram` and the source address `sender_addr`.  A datagram shorter than
`VOICE_HEADER_SIZE` is dropped; an unknown sender id is dropped; otherwise the
sender's address is learned (first packet only) and, when the sender is
`in_voice`, the datagram is forwarded unmodified to every other client with a
known UDP address that is in voice.  Sends are tagged
(recipient id, recipient address, bytes). -/
def udp_relay_step (clients : List ClientInfo) (dgram : List Nat) (sender_addr : Nat) :
    List ClientInfo × List (Nat × Nat × List Nat) :=
  if dgram.length < VOICE_HEADER_SIZE then (clients, [])
  else
    match clients.find? (fun c => c.id == read_u32 dgram) with
    | none => (clients, [])
    | some s =>
      let clients' := clients.map (fun c =>
        if c.id == read_u32 dgram then learn_addr sender_addr c else c)
      if s.in_voice then
        (clients',
          (clients'.filter
              (fun c => c.id != read_u32 dgram && c.udp_known && c.in_voice)).map
            (fun c => (c.id, c.udp_addr, dgram)))
      else (clients', [])

/-- C2: a UDP datagram shorter than 8 bytes, or whose sender id is not in the
client table, is discarded without any relay; with a present sender, the
datagram is relayed iff the sender is in voice, and then it goes, byte for
byte unmodified, to exactly the other clients that are in voice with a learned
UDP address — each of them exactly once (the send list's recipient ids repeat
none, given the table's ids are distinct). -/
theorem udp_relay_step_contract (clients : List ClientInfo) (dgram : List Nat)
    (sender_addr : Nat) :
    (dgram.length < VOICE_HEADER_SIZE →
      udp_relay_step clients dgram sender_addr = (clients, []))
    ∧ (VOICE_HEADER_SIZE ≤ dgram.length →
        clients.find? (fun c => c.id == read_u32 dgram) = none →
        udp_relay_step clients dgram sender_addr = (clients, []))
    ∧ (∀ s, VOICE_HEADER_SIZE ≤ dgram.length →
        clients.find? (fun c => c.id == read_u32 dgram) = some s →
        s.in_voice = false → (udp_relay_step clients dgram sender_addr).2 = [])
    ∧ (∀ s, VOICE_HEADER_SIZE ≤ dgram.length →
        clients.find? (fun c => c.id == read_u32 dgram) = some s →
        s.in_voice = true →
        (udp_relay_step clients dgram sender_addr).2 =
          ((udp_relay_step clients dgram sender_addr).1.filter
              (fun c => c.id != read_u32 dgram && c.udp_known && c.in_voice)).map
            (fun c => (c.id, c.udp_addr, dgram)))
    ∧ (∀ s, VOICE_HEADER_SIZE ≤ dgram.length →
        clients.find? (fun c => c.id == read_u32 dgram) = some s →
        s.in_voice = true →
        ∀ c ∈ (udp_relay_step clients dgram sender_addr).1,
          c.id ≠ read_u32 dgram → c.udp_known = true → c.in_voice = true →
          (c.id, c.udp_addr, dgram) ∈ (udp_relay_step clients dgram sender_addr).2)
    ∧ (clients.Pairwise (fun a b => a.id ≠ b.id) →
        ((udp_relay_step clients dgram sender_addr).2.map
          (fun x => x.1)).Nodup) := by
  have hid : ∀ c, (learn_addr sender_addr c).id = c.id := by
    intro c
    unfold learn_addr
    split <;> rfl
  refine ⟨?_, ?_, ?_, ?_, ?_, ?_⟩
  · intro h
    simp only [udp_relay_step, if_pos h]
  · intro h hf
    unfold udp_relay_step
    rw [if_neg (by omega), hf]
  · intro s h hf hv
    unfold udp_relay_step
    rw [if_neg (by omega), hf]
    simp [hv]
  · intro s h hf hv
    unfold udp_relay_step
    rw [if_neg (by omega), hf]
    simp [hv]
  · intro s h hf hv c hc hne hk hvc
    have h4 : (udp_relay_step clients dgram sender_addr).2 =
        ((udp_relay_step clients dgram sender_addr).1.filter
            (fun c => c.id != read_u32 dgram && c.udp_known && c.in_voice)).map
          (fun c => (c.id, c.udp_addr, dgram)) := by
      unfold udp_relay_step
      rw [if_neg (by omega), hf]
      simp [hv]
    rw [h4]
    refine List.mem_map_of_mem _ (List.mem_filter.mpr ⟨hc, ?_⟩)
    simp [hne, hk, hvc]
  · intro hpw
    by_cases hlen : dgram.length < VOICE_HEADER_SIZE
    · simp only [udp_relay_step, if_pos hlen]
      simp
    · rcases hf : clients.find? (fun c => c.id == read_u32 dgram) with _ | s
      · unfold udp_relay_step
        rw [if_neg hlen, hf]
        simp
      · unfold udp_relay_step
        rw [if_neg hlen, hf]
        by_cases hv : s.in_voice
        · simp only [hv, if_true]
          have hids : (clients.map (fun c =>
              if c.id == read_u32 dgram then learn_addr sender_addr c else c)).Pairwise
                (fun a b => a.id ≠ b.id) := by
            rw [List.pairwise_map]
            refine hpw.imp ?_
            intro a b hab
            have ha : (if a.id == read_u32 dgram then learn_addr sender_addr a else a).id
                = a.id := by split <;> simp [hid]
            have hb : (if b.id == read_u32 dgram then learn_addr sender_addr b else b).id
                = b.id := by split <;> simp [hid]
            rw [ha, hb]
            exact hab
          have hfil : ((clients.map (fun c =>
              if c.id == read_u32 dgram then learn_addr sender_addr c else c)).filter
                (fun c => c.id != read_u32 dgram && c.udp_known && c.in_voice)).Pairwise
                  (fun a b => a.id ≠ b.id) :=
            hids.sublist (List.filter_sublist _)
          rw [List.map_map]
          exact List.pairwise_map.mpr hfil
        · simp [hv]

/-- C2 witness: with sender id 1 in voice and one other voiced client with a
learned address, an 8-byte datagram from client 1 is relayed to exactly that
client. -/
theorem udp_relay_step_contract_witness :
    (udp_relay_step
        [⟨1, [], 0, true, true, false, [], []⟩, ⟨2, [], 50, true, true, false, [], []⟩]
        [1, 0, 0, 0, 0, 0, 0, 0] 9).2 =
      ((udp_relay_step
        [⟨1, [], 0, true, true, false, [], []⟩, ⟨2, [], 50, true, true, false, [], []⟩]
        [1, 0, 0, 0, 0, 0, 0, 0] 9).1.filter
          (fun c => c.id != read_u32 [1, 0, 0, 0, 0, 0, 0, 0]
            && c.udp_known && c.in_voice)).map
        (fun c => (c.id, c.udp_addr, [1, 0, 0, 0, 0, 0, 0, 0])) :=
  (udp_relay_step_contract
      [⟨1, [], 0, true, true, false, [], []⟩, ⟨2, [], 50, true, true, false, [], []⟩]
      [1, 0, 0, 0, 0, 0, 0, 0] 9).2.2.2.1
    ⟨1, [], 0, true, true, false, [], []⟩ (by decide) (by decide) rfl

/-! ## Auth store (src/server/auth_db.cpp)

The SQLite tables `users(id, username UNIQUE COLLATE NOCASE, password_hash)`
and `sessions(id, user_id, token_hash UNIQUE, expires_at)` are modelled as
lists of rows.  SHA-256 of a token (`AuthDB::hash_token`) and the Argon2id
password hash are black-box primitives in the spec; they are modelled as
opaque injective constructors, and `crypto_pwhash_str_verify` as the matching
check.  `strftime('%s','now')` is the parameter `now`. -/

structure TokenHash where
  raw : List Nat
deriving DecidableEq, Repr

/-- `AuthDB::hash_token` (SHA-256, hex-encoded): opaque injection. -/
def hash_token (raw_token : List Nat) : TokenHash := ⟨raw_token⟩

structure PwHash where
  pw : List Char
deriving DecidableEq, Repr

/-- `crypto_pwhash_str` (Argon2id): opaque injection from the password. -/
def hash_password (password : List Char) : PwHash := ⟨password⟩

/-- `crypto_pwhash_str_verify`: the stored hash matches the password. -/
def verify_password (h : PwHash) (password : List Char) : Bool := h.pw == password

structure UserRow where
  id : Nat
  username : List Char
  password_hash : PwHash
deriving DecidableEq, Repr

structure SessionRow where
  sid : Nat
  user_id : Nat
  token_hash : TokenHash
  expires_at : Int
deriving DecidableEq, Repr

structure AuthDB where
  users : List UserRow
  sessions : List SessionRow
deriving DecidableEq, Repr

/-- SQLite's NOCASE collation folds only ASCII A-Z. -/
def sqlite_lower (c : Char) : Char :=
  if 'A' ≤ c ∧ c ≤ 'Z' then Char.ofNat (c.toNat + 32) else c

/-- Equality of usernames under the `COLLATE NOCASE` declared on
`users.username`: the comparison `u.username = ?` in `validate_token`'s query
uses the column's collation, so it is ASCII-case-insensitive. -/
def nocase_eq (a b : List Char) : Bool :=
  a.map sqlite_lower == b.map sqlite_lower

/-- `SESSION_EXPIRY_DAYS * 24 * 3600` of src/server/auth_db.cpp. -/
def SESSION_EXPIRY_SECS : Int := 30 * 24 * 3600

/-- The WHERE clause of `AuthDB::validate_token`'s SELECT: the session's
token hash equals the query hash, the joined user's name matches (NOCASE) and
the session has not expired (`expires_at > now`). -/
def session_matches (db : AuthDB) (username : List Char) (th : TokenHash) (now : Int)
    (s : SessionRow) : Bool :=
  s.token_hash == th && now < s.expires_at &&
    (match db.users.find? (fun u => u.id == s.user_id) with
     | some u => nocase_eq u.username username
     | none => false)

/-- `AuthDB::create_session`: insert a session row whose hash is the hash of
the freshly generated random token, expiring `SESSION_EXPIRY_SECS` from now.
The random token and the new row id are parameters of the model. -/
def create_session (db : AuthDB) (user_id : Nat) (fresh_token : List Nat)
    (fresh_sid : Nat) (now : Int) : AuthDB :=
  { db with sessions :=
      db.sessions ++ [⟨fresh_sid, user_id, hash_token fresh_token, now + SESSION_EXPIRY_SECS⟩] }

/-- `AuthDB::validate_token`: look up a session row matching (hash of token,
NOCASE username, unexpired); on a hit delete that row (by its id) and mint a
fresh token (rolling); on a miss fail. -/
def validate_token (db : AuthDB) (username : List Char) (raw_token : List Nat)
    (now : Int) (fresh_token : List Nat) (fresh_sid : Nat) : AuthDB × Bool :=
  match db.sessions.find? (session_matches db username (hash_token raw_token) now) with
  | none => (db, false)
  | some s =>
    (create_session { db with sessions := db.sessions.filter (fun r => r.sid != s.sid) }
      s.user_id fresh_token fresh_sid now, true)

/-- `AuthDB::get_password_hash`: the stored hash of the user with this id,
when the user exists (an existing user's Argon2id hash is never empty, so the
`stored_hash.empty()` test of the C++ is the `none` case here). -/
def get_password_hash (db : AuthDB) (user_id : Nat) : Option PwHash :=
  (db.users.find? (fun u => u.id == user_id)).map (fun u => u.password_hash)

/-- `AuthDB::invalidate_all_sessions`: DELETE FROM sessions WHERE user_id = ?. -/
def invalidate_all_sessions (db : AuthDB) (user_id : Nat) : AuthDB :=
  { db with sessions := db.sessions.filter (fun s => s.user_id != user_id) }

/-- `AuthDB::change_password`: verify the old password against the stored
hash; on success replace the stored hash with the hash of the new password and
delete every session row of the user; on failure change nothing. -/
def change_password (db : AuthDB) (user_id : Nat) (old_password new_password : List Char) :
    AuthDB × Bool :=
  match get_password_hash db user_id with
  | none => (db, false)
  | some h =>
    if verify_password h old_password then
      (invalidate_all_sessions
        { db with users := db.users.map (fun u =>
            if u.id == user_id then { u with password_hash := hash_password new_password }
            else u) }
        user_id, true)
    else (db, false)

/-! ## Theorems for claim C3 (rolling token login) -/

/-- C3 counterexample: token lookup is case-insensitive, not case-matching.
With the single user `alice` and a valid session for token `T`, a token-login
as `ALICE` with `T` succeeds, although no session row exists for the
case-matching username `ALICE` — the `COLLATE NOCASE` on `users.username`
makes the `u.username = ?` comparison case-insensitive. -/
theorem validate_token_not_case_matching :
    (validate_token
        ⟨[⟨1, ['a', 'l', 'i', 'c', 'e'], ⟨['p']⟩⟩], [⟨1, 1, hash_token [7], 100⟩]⟩
        ['A', 'L', 'I', 'C', 'E'] [7] 50 [9] 2).2 = true
    ∧ ¬ ∃ s ∈ ([⟨1, 1, hash_token [7], 100⟩] : List SessionRow),
        s.token_hash = hash_token [7] ∧ (50 : Int) < s.expires_at
          ∧ ∃ u ∈ ([⟨1, ['a', 'l', 'i', 'c', 'e'], ⟨['p']⟩⟩] : List UserRow),
              u.id = s.user_id ∧ u.username = ['A', 'L', 'I', 'C', 'E'] := by
  constructor
  · decide
  · decide

theorem find?_user_of_mem {users : List UserRow}
    (hUid : users.Pairwise (fun a b => a.id ≠ b.id)) {u : UserRow} (hu : u ∈ users)
    {i : Nat} (hui : u.id = i) : users.find? (fun v => v.id == i) = some u := by
  induction users with
  | nil => cases hu
  | cons a l ih =>
    rcases List.mem_cons.mp hu with rfl | hu'
    · simp [List.find?_cons, hui]
    · have hne : a.id ≠ i := by
        rw [← hui]
        exact (List.pairwise_cons.mp hUid).1 u hu'
      have hbeq : (a.id == i) = false := by simp [hne]
      rw [List.find?_cons, hbeq]
      exact ih (List.pairwise_cons.mp hUid).2 hu'

theorem session_matches_token {db : AuthDB} {username : List Char} {th : TokenHash}
    {now : Int} {s : SessionRow} (h : session_matches db username th now s = true) :
    s.token_hash = th := by
  unfold session_matches at h
  simp only [Bool.and_eq_true, beq_iff_eq] at h
  exact h.1.1

theorem session_matches_iff {db : AuthDB}
    (hUid : db.users.Pairwise (fun a b => a.id ≠ b.id))
    (username : List Char) (th : TokenHash) (now : Int) (s : SessionRow) :
    session_matches db username th now s = true ↔
      (s.token_hash = th ∧ now < s.expires_at
        ∧ ∃ u ∈ db.users, u.id = s.user_id ∧ nocase_eq u.username username = true) := by
  unfold session_matches
  constructor
  · intro h
    simp only [Bool.and_eq_true, beq_iff_eq, decide_eq_true_eq] at h
    rcases h with ⟨⟨h1, h2⟩, h3⟩
    refine ⟨h1, h2, ?_⟩
    rcases hf : db.users.find? (fun u => u.id == s.user_id) with _ | u
    · rw [hf] at h3
      cases h3
    · rw [hf] at h3
      exact ⟨u, List.mem_of_find?_eq_some hf, by simpa using List.find?_some hf, h3⟩
  · rintro ⟨h1, h2, u, hu, hui, hnc⟩
    have hf : db.users.find? (fun v => v.id == s.user_id) = some u :=
      find?_user_of_mem hUid hu hui
    simp [h1, h2, hf, hnc]

theorem validate_token_of_none {db : AuthDB} {username : List Char}
    {raw_token fresh_token : List Nat} {now : Int} {fresh_sid : Nat}
    (h : db.sessions.find? (session_matches db username (hash_token raw_token) now) = none) :
    validate_token db username raw_token now fresh_token fresh_sid = (db, false) := by
  unfold validate_token
  rw [h]

/-- C3 amended: a token-login with token `T` succeeds iff an unexpired session
row with hash `SHA-256(T)` exists for a user whose name matches the supplied
one case-insensitively (NOCASE, not case-matching); on success that session
row is deleted and a session for the freshly minted random token is inserted,
so a second token-login with the same `T` fails — for any username and time —
as long as the fresh random token differs from `T` (hypotheses: session token
hashes are unique, per the UNIQUE constraint, and user ids are distinct, per
the primary key). -/
theorem validate_token_rolling (db : AuthDB) (username : List Char)
    (raw_token fresh_token : List Nat) (now : Int) (fresh_sid : Nat)
    (huniq : (db.sessions.map (fun s => s.token_hash)).Nodup)
    (hUid : db.users.Pairwise (fun a b => a.id ≠ b.id))
    (hfresh : fresh_token ≠ raw_token) :
    ((validate_token db username raw_token now fresh_token fresh_sid).2 = true ↔
      ∃ s ∈ db.sessions, s.token_hash = hash_token raw_token ∧ now < s.expires_at
        ∧ ∃ u ∈ db.users, u.id = s.user_id ∧ nocase_eq u.username username = true)
    ∧ ((validate_token db username raw_token now fresh_token fresh_sid).2 = true →
        (∀ s ∈ (validate_token db username raw_token now fresh_token fresh_sid).1.sessions,
            s.token_hash ≠ hash_token raw_token)
        ∧ (∃ s ∈ (validate_token db username raw_token now fresh_token fresh_sid).1.sessions,
            s.token_hash = hash_token fresh_token)
        ∧ ∀ username' now' fresh' sid',
            (validate_token (validate_token db username raw_token now fresh_token fresh_sid).1
              username' raw_token now' fresh' sid').2 = false) := by
  constructor
  · rcases hfind : db.sessions.find? (session_matches db username (hash_token raw_token) now)
        with _ | s0
    · rw [List.find?_eq_none] at hfind
      unfold validate_token
      rw [List.find?_eq_none.mpr hfind]
      simp only [Bool.false_eq_true, false_iff]
      rintro ⟨s, hs, h1, h2, hu⟩
      exact hfind s hs ((session_matches_iff hUid username _ now s).mpr ⟨h1, h2, hu⟩)
    · unfold validate_token
      rw [hfind]
      simp only [true_iff]
      exact ⟨s0, List.mem_of_find?_eq_some hfind,
        (session_matches_iff hUid username _ now s0).mp (List.find?_some hfind)⟩
  · intro hok
    rcases hfind : db.sessions.find? (session_matches db username (hash_token raw_token) now)
        with _ | s0
    · unfold validate_token at hok
      rw [hfind] at hok
      cases hok
    have hs0mem : s0 ∈ db.sessions := List.mem_of_find?_eq_some hfind
    have hs0hash : s0.token_hash = hash_token raw_token :=
      session_matches_token (List.find?_some hfind)
    have hres : (validate_token db username raw_token now fresh_token fresh_sid).1.sessions =
        db.sessions.filter (fun r => r.sid != s0.sid)
          ++ [⟨fresh_sid, s0.user_id, hash_token fresh_token, now + SESSION_EXPIRY_SECS⟩] := by
      unfold validate_token
      rw [hfind]
      rfl
    have hnotoken : ∀ s ∈ (validate_token db username raw_token now fresh_token fresh_sid).1.sessions,
        s.token_hash ≠ hash_token raw_token := by
      intro s hs
      rw [hres] at hs
      rcases List.mem_append.mp hs with hs | hs
      · have hmem := List.mem_of_mem_filter hs
        have hsid := List.of_mem_filter hs
        intro hcon
        have : s = s0 := List.inj_on_of_nodup_map huniq hmem hs0mem (by rw [hcon, hs0hash])
        rw [this] at hsid
        simp at hsid
      · rw [List.mem_singleton.mp hs]
        intro hcon
        have : fresh_token = raw_token := by
          have := congrArg TokenHash.raw hcon
          simpa [hash_token] using this
        exact hfresh this
    refine ⟨hnotoken, ?_, ?_⟩
    · refine ⟨⟨fresh_sid, s0.user_id, hash_token fresh_token, now + SESSION_EXPIRY_SECS⟩, ?_, rfl⟩
      rw [hres]
      exact List.mem_append_right _ (List.mem_singleton.mpr rfl)
    · intro username' now' fresh' sid'
      have hnone : (validate_token db username raw_token now fresh_token fresh_sid).1.sessions.find?
          (session_matches (validate_token db username raw_token now fresh_token fresh_sid).1
            username' (hash_token raw_token) now') = none := by
        rw [List.find?_eq_none]
        intro r hr hcon
        exact hnotoken r hr (session_matches_token hcon)
      rw [validate_token_of_none hnone]

/-- C3 witness: a concrete rolling login — user `bob`, a valid session for
token `[7]`, fresh token `[9]`: the login succeeds. -/
theorem validate_token_rolling_witness :
    (validate_token ⟨[⟨1, ['b', 'o', 'b'], ⟨['p']⟩⟩], [⟨1, 1, hash_token [7], 100⟩]⟩
      ['b', 'o', 'b'] [7] 50 [9] 2).2 = true :=
  (validate_token_rolling ⟨[⟨1, ['b', 'o', 'b'], ⟨['p']⟩⟩], [⟨1, 1, hash_token [7], 100⟩]⟩
      ['b', 'o', 'b'] [7] [9] 50 2 (by decide) (by decide) (by decide)).1.mpr (by decide)

/-! ## Theorems for claim C4 (password change invalidates sessions) -/

/-- C4: `change_password` succeeds iff the user exists and the supplied old
password verifies against the stored hash; on failure nothing changes; on
success the stored hash is replaced by the hash of the new password and every
session row of the user is deleted, so a token-login with any previously
issued token of that user fails afterwards (for any username and time, given
the UNIQUE constraint on session token hashes). -/
theorem change_password_contract (db : AuthDB) (user_id : Nat)
    (old_password new_password : List Char) :
    ((change_password db user_id old_password new_password).2 = true ↔
      ∃ u, db.users.find? (fun v => v.id == user_id) = some u
        ∧ verify_password u.password_hash old_password = true)
    ∧ ((change_password db user_id old_password new_password).2 = false →
        (change_password db user_id old_password new_password).1 = db)
    ∧ ((change_password db user_id old_password new_password).2 = true →
        (change_password db user_id old_password new_password).1.users
          = db.users.map (fun u => if u.id == user_id
              then { u with password_hash := hash_password new_password } else u)
        ∧ (change_password db user_id old_password new_password).1.sessions
          = db.sessions.filter (fun s => s.user_id != user_id))
    ∧ ((change_password db user_id old_password new_password).2 = true →
        ∀ s ∈ (change_password db user_id old_password new_password).1.sessions,
          s.user_id ≠ user_id)
    ∧ ((change_password db user_id old_password new_password).2 = true →
        (db.sessions.map (fun s => s.token_hash)).Nodup →
        ∀ (t : List Nat) (s : SessionRow), s ∈ db.sessions → s.user_id = user_id →
          s.token_hash = hash_token t →
          ∀ (username' : List Char) (now' : Int) (fresh' : List Nat) (sid' : Nat),
            (validate_token (change_password db user_id old_password new_password).1
              username' t now' fresh' sid').2 = false) := by
  rcases hf : db.users.find? (fun v => v.id == user_id) with _ | u
  · have hcp : change_password db user_id old_password new_password = (db, false) := by
      unfold change_password get_password_hash
      rw [hf]
      rfl
    rw [hcp]
    refine ⟨?_, ?_, ?_, ?_, ?_⟩
    · simp only [Bool.false_eq_true, false_iff]
      rintro ⟨u, hu, _⟩
      rw [hf] at hu
      cases hu
    · intro _
      rfl
    · intro hc
      simp at hc
    · intro hc
      simp at hc
    · intro hc
      simp at hc
  · have hg : get_password_hash db user_id = some u.password_hash := by
      unfold get_password_hash
      rw [hf]
      rfl
    by_cases hv : verify_password u.password_hash old_password
    · have hcp : change_password db user_id old_password new_password =
          (invalidate_all_sessions
            { db with users := db.users.map (fun w =>
                if w.id == user_id then { w with password_hash := hash_password new_password }
                else w) }
            user_id, true) := by
        unfold change_password
        rw [hg]
        simp [hv]
      refine ⟨?_, ?_, fun _ => ⟨?_, ?_⟩, ?_, ?_⟩
      · rw [hcp]
        exact ⟨fun _ => ⟨u, hf, hv⟩, fun _ => rfl⟩
      · rw [hcp]
        intro hc
        cases hc
      · rw [hcp]
        rfl
      · rw [hcp]
        rfl
      · rw [hcp]
        intro _ s hs
        have := List.of_mem_filter hs
        simpa using this
      · intro _ huniq t s hsmem hsuid hsth username' now' fresh' sid'
        have hsessions : (change_password db user_id old_password new_password).1.sessions
            = db.sessions.filter (fun r => r.user_id != user_id) := by
          rw [hcp]
          rfl
        have hnone : (change_password db user_id old_password new_password).1.sessions.find?
            (session_matches (change_password db user_id old_password new_password).1
              username' (hash_token t) now') = none := by
          rw [List.find?_eq_none]
          intro r hr hcon
          rw [hsessions] at hr
          have hrmem := List.mem_of_mem_filter hr
          have hruid := List.of_mem_filter hr
          have hrth : r.token_hash = s.token_hash := by
            rw [session_matches_token hcon, hsth]
          have : r = s := List.inj_on_of_nodup_map huniq hrmem hsmem hrth
          rw [this] at hruid
          simp [hsuid] at hruid
        rw [validate_token_of_none hnone]
    · have hcp : change_password db user_id old_password new_password = (db, false) := by
        unfold change_password
        rw [hg]
        simp [hv]
      rw [hcp]
      refine ⟨?_, ?_, ?_, ?_, ?_⟩
      · simp only [Bool.false_eq_true, false_iff]
        rintro ⟨w, hw, hwv⟩
        rw [hf] at hw
        cases hw
        exact hv hwv
      · intro _
        rfl
      · intro hc
        simp at hc
      · intro hc
        simp at hc
      · intro hc
        simp at hc

/-- C4 witness: a concrete successful password change for user 1. -/
theorem change_password_contract_witness :
    (change_password ⟨[⟨1, ['b'], hash_password ['o', 'l', 'd']⟩], []⟩ 1
      ['o', 'l', 'd'] ['n', 'e', 'w']).2 = true :=
  (change_password_contract ⟨[⟨1, ['b'], hash_password ['o', 'l', 'd']⟩], []⟩ 1
      ['o', 'l', 'd'] ['n', 'e', 'w']).1.mpr
    ⟨⟨1, ['b'], hash_password ['o', 'l', 'd']⟩, by decide, by decide⟩

/-! ## Screen relay drain cycle (src/server/main.cpp, `screen_relay_loop`) -/

/-- The batch split of one drain pass of `screen_relay_loop`: audio items and
video (frame) items, each in arrival order. -/
def relay_partition (batch : List RelayItem) : List RelayItem × List RelayItem :=
  (batch.filter (fun it => it.audio), batch.filter (fun it => !it.audio))

/-- The `newest[frame_items[i].sharer_id] = i` fold of `screen_relay_loop`:
walk the frame items left to right, keeping per sharer only the latest one. -/
def newest_assoc (frames : List RelayItem) : List (Nat × RelayItem) :=
  frames.foldl (fun m it =>
    if m.any (fun p => p.1 == it.sharer_id)
    then m.map (fun p => if p.1 == it.sharer_id then (p.1, it) else p)
    else m ++ [(it.sharer_id, it)]) []

/-- The set of video items one drain pass of `screen_relay_loop` sends to the
subscribers: per sharer, only the newest video item of the batch.  (The
`unordered_map` iteration order only permutes the sends; the sent set is what
matters, and an item absent from it reaches no subscriber.) -/
def drain_video_sends (frames : List RelayItem) : List RelayItem :=
  (newest_assoc frames).map (fun p => p.2)

/-- C1 (code bug): the drain cycle drops an accepted keyframe.  The enqueue
policy accepts a keyframe K from sharer 1 followed by a newer non-keyframe P
from the same sharer (neither is dropped at enqueue — the queue is far below
its 60-item bound), yet the drain pass's newest-video-per-sharer selection
sends only P: the keyframe K reaches no subscriber, contradicting the claim
(and §4.9/S6 of the specification, and the `is_keyframe` tag's own stated
purpose of marking items that must not be dropped). -/
theorem screen_relay_drop_cycle_drops_keyframe :
    enqueue_relay (enqueue_relay [] ⟨[1], 1, false, true⟩) ⟨[2], 1, false, false⟩
      = [⟨[1], 1, false, true⟩, ⟨[2], 1, false, false⟩]
    ∧ relay_partition [⟨[1], 1, false, true⟩, ⟨[2], 1, false, false⟩]
      = ([], [⟨[1], 1, false, true⟩, ⟨[2], 1, false, false⟩])
    ∧ drain_video_sends [⟨[1], 1, false, true⟩, ⟨[2], 1, false, false⟩]
      = [⟨[2], 1, false, false⟩]
    ∧ (⟨[1], 1, false, true⟩ : RelayItem).keyframe = true
    ∧ (⟨[1], 1, false, true⟩ : RelayItem)
        ∉ drain_video_sends [⟨[1], 1, false, true⟩, ⟨[2], 1, false, false⟩] := by
  refine ⟨?_, by decide, by decide, rfl, by decide⟩
  have h1 : enqueue_relay [] (⟨[1], 1, false, true⟩ : RelayItem)
      = [⟨[1], 1, false, true⟩] := drop_over_limit_of_le (by decide)
  rw [h1]
  exact drop_over_limit_of_le (by decide)

/-! ## Chat record codec (src/common/chat_persistence.h)

Strings are `List Char` (one entry per byte of the C++ `std::string`).  The
brace characters are written via their code points. -/

def lbrace : Char := Char.ofNat 123

def rbrace : Char := Char.ofNat 125

structure ChatLine where
  seq : Nat
  sender : List Char
  timestamp : Int
  text : List Char
  valid : Bool
deriving DecidableEq, Repr

/-- One step of `json_escape`: the replacement for one character. -/
def esc_char (c : Char) : List Char :=
  if c = '"' then ['\\', '"']
  else if c = '\\' then ['\\', '\\']
  else if c = '\n' then ['\\', 'n']
  else if c = '\r' then ['\\', 'r']
  else if c = '\t' then ['\\', 't']
  else [c]

/-- `json_escape` of src/common/chat_persistence.h. -/
def json_escape : List Char → List Char
  | [] => []
  | c :: rest => esc_char c ++ json_escape rest

/-- `json_unescape` of src/common/chat_persistence.h: a backslash followed by
one of `"` `\` `n` `r` `t` decodes to the escaped character; a backslash
followed by anything else is kept as a lone backslash (the next character is
processed on its own); a trailing backslash is kept. -/
def json_unescape : List Char → List Char
  | [] => []
  | c :: rest =>
    if c = '\\' then
      match rest with
      | [] => ['\\']
      | d :: rest' =>
        if d = '"' then '"' :: json_unescape rest'
        else if d = '\\' then '\\' :: json_unescape rest'
        else if d = 'n' then '\n' :: json_unescape rest'
        else if d = 'r' then '\r' :: json_unescape rest'
        else if d = 't' then '\t' :: json_unescape rest'
        else '\\' :: d :: json_unescape rest'
    else c :: json_unescape rest

/-- The value-collecting loop of `extract_json_string`: copy characters (a
backslash together with its successor) until an unescaped `"`. -/
def scan_string_value : List Char → List Char
  | [] => []
  | c :: rest =>
    if c = '\\' then
      match rest with
      | [] => ['\\']
      | d :: rest' => '\\' :: d :: scan_string_value rest'
    else if c = '"' then []
    else c :: scan_string_value rest

/-- Boolean list-prefix test (drives the substring search below). -/
def is_pre : List Char → List Char → Bool
  | [], _ => true
  | _ :: _, [] => false
  | a :: as, b :: bs => a == b && is_pre as bs

/-- `std::string::find`: index of the first occurrence of `needle`. -/
def find_sub (needle : List Char) : List Char → Option Nat
  | [] => if is_pre needle [] then some 0 else none
  | c :: rest =>
    if is_pre needle (c :: rest) then some 0
    else (find_sub needle rest).map (· + 1)

/-- The needle `"key":"` of `extract_json_string`. -/
def str_key_needle (key : List Char) : List Char := '"' :: key ++ ['"', ':', '"']

/-- The needle `"key":` of `extract_json_int`. -/
def int_key_needle (key : List Char) : List Char := '"' :: key ++ ['"', ':']

/-- `extract_json_string` of src/common/chat_persistence.h. -/
def extract_json_string (line key : List Char) : List Char :=
  match find_sub (str_key_needle key) line with
  | none => []
  | some pos =>
    json_unescape (scan_string_value (line.drop (pos + (str_key_needle key).length)))

/-- Wrap-around to a signed 64-bit value, modelling C++ `int64_t` arithmetic
(signed overflow behaves as two's-complement wrap here). -/
def to_int64 (x : Int) : Int := (x + 2 ^ 63) % 2 ^ 64 - 2 ^ 63

def digit_val (c : Char) : Int := (c.toNat : Int) - 48

/-- The digit loop of `extract_json_int`: `val = val * 10 + (c - '0')` on
`int64_t`, stopping at the first non-digit. -/
def digits_loop : List Char → Int → Int
  | [], val => val
  | c :: rest, val =>
    if '0' ≤ c ∧ c ≤ '9' then digits_loop rest (to_int64 (val * 10 + digit_val c))
    else val

/-- The value part of `extract_json_int`: skip spaces and tabs, read an
optional minus sign and the digits (int64 negation wraps). -/
def parse_int_after (l : List Char) : Int :=
  match l.dropWhile (fun c => c == ' ' || c == '\t') with
  | '-' :: rest' => to_int64 (- digits_loop rest' 0)
  | rest => digits_loop rest 0

/-- `extract_json_int` of src/common/chat_persistence.h: find `"key":`, then
read the integer value that follows. -/
def extract_json_int (line key : List Char) : Int :=
  match find_sub (int_key_needle key) line with
  | none => 0
  | some pos => parse_int_after (line.drop (pos + (int_key_needle key).length))

/-- The accumulation `digits_loop` performs over a run of digit characters. -/
def dec_fold (ds : List Char) (acc : Int) : Int :=
  ds.foldl (fun a c => to_int64 (a * 10 + digit_val c)) acc

def digit_char (d : Nat) : Char := Char.ofNat (48 + d)

/-- Decimal rendering of an unsigned value (`operator<<` on an integer):
most-significant digit first, `"0"` for zero. -/
def nat_to_dec (n : Nat) : List Char :=
  if n = 0 then ['0'] else ((Nat.digits 10 n).map digit_char).reverse

/-- Decimal rendering of a signed value. -/
def int_to_dec (i : Int) : List Char :=
  if i < 0 then '-' :: nat_to_dec (-i).toNat else nat_to_dec i.toNat

def seq_key : List Char := ['s', 'e', 'q']

def sender_key : List Char := ['s', 'e', 'n', 'd', 'e', 'r']

def ts_key : List Char := ['t', 's']

def text_key : List Char := ['t', 'e', 'x', 't']

/-- `serialize_chat_line` of src/common/chat_persistence.h:
`{"seq":N,"sender":"E(sender)","ts":T,"text":"E(text)"}`. -/
def serialize_chat_line (seq : Nat) (sender : List Char) (timestamp : Int)
    (text : List Char) : List Char :=
  lbrace :: int_key_needle seq_key ++ nat_to_dec seq
    ++ ',' :: str_key_needle sender_key ++ json_escape sender
    ++ '"' :: ',' :: int_key_needle ts_key ++ int_to_dec timestamp
    ++ ',' :: str_key_needle text_key ++ json_escape text
    ++ ['"', rbrace]

/-- Cast of the parsed `int64_t` back to `uint64_t` (`static_cast<uint64_t>`). -/
def to_uint64 (x : Int) : Nat := (x % 2 ^ 64).toNat

/-- `parse_chat_line` of src/common/chat_persistence.h: reject a line that is
empty or does not start with `{`; otherwise extract the four fields and mark
the record valid iff `seq > 0`. -/
def parse_chat_line (line : List Char) : ChatLine :=
  if line.head? ≠ some lbrace then ⟨0, [], 0, [], false⟩
  else
    { seq := to_uint64 (extract_json_int line seq_key)
      sender := extract_json_string line sender_key
      timestamp := extract_json_int line ts_key
      text := extract_json_string line text_key
      valid := decide (0 < to_uint64 (extract_json_int line seq_key)) }

/-- `load_chat_history` of src/server/main.cpp: skip empty lines, parse each
remaining line, keep the records whose parse is valid (malformed lines are
skipped silently). -/
def load_chat_history : List (List Char) → List ChatLine
  | [] => []
  | l :: rest =>
    if l.isEmpty then load_chat_history rest
    else
      if (parse_chat_line l).valid then parse_chat_line l :: load_chat_history rest
      else load_chat_history rest


/-! ## Theorems for claims C7 and C8 (chat record codec) -/

theorem esc_char_eq (c : Char) :
    (esc_char c = ['\\', '"'] ∧ c = '"')
    ∨ (esc_char c = ['\\', '\\'] ∧ c = '\\')
    ∨ (esc_char c = ['\\', 'n'] ∧ c = '\n')
    ∨ (esc_char c = ['\\', 'r'] ∧ c = '\r')
    ∨ (esc_char c = ['\\', 't'] ∧ c = '\t')
    ∨ (esc_char c = [c] ∧ c ≠ '"' ∧ c ≠ '\\' ∧ c ≠ '\n' ∧ c ≠ '\r' ∧ c ≠ '\t') := by
  by_cases h1 : c = '"'
  · exact Or.inl ⟨by simp [esc_char, h1], h1⟩
  by_cases h2 : c = '\\'
  · exact Or.inr (Or.inl ⟨by simp [esc_char, h1, h2], h2⟩)
  by_cases h3 : c = '\n'
  · exact Or.inr (Or.inr (Or.inl ⟨by simp [esc_char, h1, h2, h3], h3⟩))
  by_cases h4 : c = '\r'
  · exact Or.inr (Or.inr (Or.inr (Or.inl ⟨by simp [esc_char, h1, h2, h3, h4], h4⟩)))
  by_cases h5 : c = '\t'
  · exact Or.inr (Or.inr (Or.inr (Or.inr (Or.inl ⟨by simp [esc_char, h1, h2, h3, h4, h5], h5⟩))))
  · exact Or.inr (Or.inr (Or.inr (Or.inr (Or.inr
      ⟨by simp [esc_char, h1, h2, h3, h4, h5], h1, h2, h3, h4, h5⟩))))

theorem ju_safe (c : Char) (L : List Char) (h : c ≠ '\\') :
    json_unescape (c :: L) = c :: json_unescape L := by
  rw [json_unescape.eq_def]
  simp [h]

theorem ju_q (L : List Char) :
    json_unescape ('\\' :: '"' :: L) = '"' :: json_unescape L := by
  rw [json_unescape.eq_def]
  simp

theorem ju_bs (L : List Char) :
    json_unescape ('\\' :: '\\' :: L) = '\\' :: json_unescape L := by
  rw [json_unescape.eq_def]
  simp

theorem ju_n (L : List Char) :
    json_unescape ('\\' :: 'n' :: L) = '\n' :: json_unescape L := by
  rw [json_unescape.eq_def]
  simp

theorem ju_r (L : List Char) :
    json_unescape ('\\' :: 'r' :: L) = '\r' :: json_unescape L := by
  rw [json_unescape.eq_def]
  simp

theorem ju_t (L : List Char) :
    json_unescape ('\\' :: 't' :: L) = '\t' :: json_unescape L := by
  rw [json_unescape.eq_def]
  simp

theorem sv_pair (d : Char) (L : List Char) :
    scan_string_value ('\\' :: d :: L) = '\\' :: d :: scan_string_value L := by
  rw [scan_string_value.eq_def]
  simp

theorem sv_quote (L : List Char) : scan_string_value ('"' :: L) = [] := by
  rw [scan_string_value.eq_def]
  simp [scan_string_value]

theorem sv_safe (c : Char) (L : List Char) (h1 : c ≠ '\\') (h2 : c ≠ '"') :
    scan_string_value (c :: L) = c :: scan_string_value L := by
  rw [scan_string_value.eq_def]
  simp [h1, h2]

theorem json_unescape_escape (s : List Char) : json_unescape (json_escape s) = s := by
  induction s with
  | nil => rfl
  | cons c rest ih =>
    show json_unescape (esc_char c ++ json_escape rest) = c :: rest
    rcases esc_char_eq c with ⟨he, hc⟩ | ⟨he, hc⟩ | ⟨he, hc⟩ | ⟨he, hc⟩ | ⟨he, hc⟩ |
        ⟨he, hc1, hc2, hc3, hc4, hc5⟩ <;> rw [he]
    · rw [List.cons_append, List.cons_append, List.nil_append, ju_q, ih, hc]
    · rw [List.cons_append, List.cons_append, List.nil_append, ju_bs, ih, hc]
    · rw [List.cons_append, List.cons_append, List.nil_append, ju_n, ih, hc]
    · rw [List.cons_append, List.cons_append, List.nil_append, ju_r, ih, hc]
    · rw [List.cons_append, List.cons_append, List.nil_append, ju_t, ih, hc]
    · rw [List.cons_append, List.nil_append, ju_safe c _ hc2, ih]

theorem scan_string_value_escape (s r : List Char) :
    scan_string_value (json_escape s ++ '"' :: r) = json_escape s := by
  induction s with
  | nil => rw [show json_escape [] = [] from rfl, List.nil_append, sv_quote]
  | cons c rest ih =>
    show scan_string_value (esc_char c ++ json_escape rest ++ '"' :: r)
      = esc_char c ++ json_escape rest
    rcases esc_char_eq c with ⟨he, hc⟩ | ⟨he, hc⟩ | ⟨he, hc⟩ | ⟨he, hc⟩ | ⟨he, hc⟩ |
        ⟨he, hc1, hc2, hc3, hc4, hc5⟩ <;> rw [he] <;>
      simp only [List.cons_append, List.nil_append, List.append_assoc]
    · rw [sv_pair, ih]
    · rw [sv_pair, ih]
    · rw [sv_pair, ih]
    · rw [sv_pair, ih]
    · rw [sv_pair, ih]
    · rw [sv_safe c _ hc2 hc1, ih]

theorem is_pre_self_append (N r : List Char) : is_pre N (N ++ r) = true := by
  induction N with
  | nil => rfl
  | cons a as ih => simp [is_pre, ih]

theorem find_sub_of_is_pre {N l : List Char} (h : is_pre N l = true) :
    find_sub N l = some 0 := by
  cases l with
  | nil => simp [find_sub, h]
  | cons c rest => simp [find_sub, h]

theorem find_sub_cons_skip {N : List Char} {c : Char} {rest : List Char}
    (h : is_pre N (c :: rest) = false) :
    find_sub N (c :: rest) = (find_sub N rest).map (· + 1) := by
  simp [find_sub, h]

theorem is_pre_cons_of_ne {a b : Char} (h : a ≠ b) (as bs : List Char) :
    is_pre (a :: as) (b :: bs) = false := by
  simp [is_pre, h]

theorem is_pre_cons_eq (a : Char) (as bs : List Char) :
    is_pre (a :: as) (a :: bs) = is_pre as bs := by
  simp [is_pre]

theorem find_sub_append_noocc (N pre rest : List Char)
    (h : ∀ i, i < pre.length → is_pre N (pre.drop i ++ rest) = false) :
    find_sub N (pre ++ rest) = (find_sub N rest).map (· + pre.length) := by
  induction pre with
  | nil => simp
  | cons c p ih =>
    rw [List.cons_append, find_sub_cons_skip (by simpa using h 0 (by simp)),
      ih (fun i hi => by simpa using h (i + 1) (by simpa using hi))]
    rcases find_sub N rest with _ | v
    · simp
    · simp
      omega

theorem no_ts_tail3 (s r : List Char) :
    is_pre ['"', ':'] (json_escape s ++ '"' :: ',' :: r) = false := by
  cases s with
  | nil =>
    rw [show json_escape [] = [] from rfl, List.nil_append, is_pre_cons_eq]
    simp [is_pre]
  | cons c s' =>
    show is_pre ['"', ':'] (esc_char c ++ json_escape s' ++ '"' :: ',' :: r) = false
    rcases esc_char_eq c with ⟨he, hc⟩ | ⟨he, hc⟩ | ⟨he, hc⟩ | ⟨he, hc⟩ | ⟨he, hc⟩ |
        ⟨he, hc1, hc2, hc3, hc4, hc5⟩ <;> rw [he] <;>
      simp only [List.cons_append, List.nil_append, List.append_assoc]
    · exact is_pre_cons_of_ne (by decide) _ _
    · exact is_pre_cons_of_ne (by decide) _ _
    · exact is_pre_cons_of_ne (by decide) _ _
    · exact is_pre_cons_of_ne (by decide) _ _
    · exact is_pre_cons_of_ne (by decide) _ _
    · exact is_pre_cons_of_ne (Ne.symm hc1) _ _

theorem no_ts_tail2 (s r : List Char) :
    is_pre ['s', '"', ':'] (json_escape s ++ '"' :: ',' :: r) = false := by
  cases s with
  | nil =>
    rw [show json_escape [] = [] from rfl, List.nil_append]
    exact is_pre_cons_of_ne (by decide) _ _
  | cons c s' =>
    show is_pre ['s', '"', ':'] (esc_char c ++ json_escape s' ++ '"' :: ',' :: r) = false
    rcases esc_char_eq c with ⟨he, hc⟩ | ⟨he, hc⟩ | ⟨he, hc⟩ | ⟨he, hc⟩ | ⟨he, hc⟩ |
        ⟨he, hc1, hc2, hc3, hc4, hc5⟩ <;> rw [he] <;>
      simp only [List.cons_append, List.nil_append, List.append_assoc]
    · exact is_pre_cons_of_ne (by decide) _ _
    · exact is_pre_cons_of_ne (by decide) _ _
    · exact is_pre_cons_of_ne (by decide) _ _
    · exact is_pre_cons_of_ne (by decide) _ _
    · exact is_pre_cons_of_ne (by decide) _ _
    · by_cases hs : c = 's'
      · rw [hs, is_pre_cons_eq]
        exact no_ts_tail3 s' r
      · exact is_pre_cons_of_ne (Ne.symm hs) _ _

theorem no_ts_tail1 (s r : List Char) :
    is_pre ['t', 's', '"', ':'] (json_escape s ++ '"' :: ',' :: r) = false := by
  cases s with
  | nil =>
    rw [show json_escape [] = [] from rfl, List.nil_append]
    exact is_pre_cons_of_ne (by decide) _ _
  | cons c s' =>
    show is_pre ['t', 's', '"', ':'] (esc_char c ++ json_escape s' ++ '"' :: ',' :: r) = false
    rcases esc_char_eq c with ⟨he, hc⟩ | ⟨he, hc⟩ | ⟨he, hc⟩ | ⟨he, hc⟩ | ⟨he, hc⟩ |
        ⟨he, hc1, hc2, hc3, hc4, hc5⟩ <;> rw [he] <;>
      simp only [List.cons_append, List.nil_append, List.append_assoc]
    · exact is_pre_cons_of_ne (by decide) _ _
    · exact is_pre_cons_of_ne (by decide) _ _
    · exact is_pre_cons_of_ne (by decide) _ _
    · exact is_pre_cons_of_ne (by decide) _ _
    · exact is_pre_cons_of_ne (by decide) _ _
    · by_cases ht : c = 't'
      · rw [ht, is_pre_cons_eq]
        exact no_ts_tail2 s' r
      · exact is_pre_cons_of_ne (Ne.symm ht) _ _

theorem find_skip_escape_ts (s r : List Char) :
    find_sub ['"', 't', 's', '"', ':'] (json_escape s ++ '"' :: ',' :: r)
      = (find_sub ['"', 't', 's', '"', ':'] r).map (· + ((json_escape s).length + 2)) := by
  induction s with
  | nil =>
    rw [show json_escape [] = [] from rfl, List.nil_append]
    rw [find_sub_cons_skip (by rw [is_pre_cons_eq]; exact is_pre_cons_of_ne (by decide) _ _),
      find_sub_cons_skip (is_pre_cons_of_ne (by decide) _ _)]
    rcases find_sub ['"', 't', 's', '"', ':'] r with _ | v
    · simp
    · simp
  | cons c s' ih =>
    show find_sub _ (esc_char c ++ json_escape s' ++ '"' :: ',' :: r) = _
    rcases esc_char_eq c with ⟨he, hc⟩ | ⟨he, hc⟩ | ⟨he, hc⟩ | ⟨he, hc⟩ | ⟨he, hc⟩ |
        ⟨he, hc1, hc2, hc3, hc4, hc5⟩ <;> rw [he] <;>
      simp only [List.cons_append, List.nil_append, List.append_assoc]
    · rw [find_sub_cons_skip (is_pre_cons_of_ne (by decide) _ _),
        find_sub_cons_skip (by rw [is_pre_cons_eq]; exact no_ts_tail1 s' r), ih]
      rcases find_sub ['"', 't', 's', '"', ':'] r with _ | v
      · simp
      · simp [json_escape, he]
        omega
    · rw [find_sub_cons_skip (is_pre_cons_of_ne (by decide) _ _),
        find_sub_cons_skip (is_pre_cons_of_ne (by decide) _ _), ih]
      rcases find_sub ['"', 't', 's', '"', ':'] r with _ | v
      · simp
      · simp [json_escape, he]
        omega
    · rw [find_sub_cons_skip (is_pre_cons_of_ne (by decide) _ _),
        find_sub_cons_skip (is_pre_cons_of_ne (by decide) _ _), ih]
      rcases find_sub ['"', 't', 's', '"', ':'] r with _ | v
      · simp
      · simp [json_escape, he]
        omega
    · rw [find_sub_cons_skip (is_pre_cons_of_ne (by decide) _ _),
        find_sub_cons_skip (is_pre_cons_of_ne (by decide) _ _), ih]
      rcases find_sub ['"', 't', 's', '"', ':'] r with _ | v
      · simp
      · simp [json_escape, he]
        omega
    · rw [find_sub_cons_skip (is_pre_cons_of_ne (by decide) _ _),
        find_sub_cons_skip (is_pre_cons_of_ne (by decide) _ _), ih]
      rcases find_sub ['"', 't', 's', '"', ':'] r with _ | v
      · simp
      · simp [json_escape, he]
        omega
    · rw [find_sub_cons_skip (is_pre_cons_of_ne (Ne.symm hc1) _ _), ih]
      rcases find_sub ['"', 't', 's', '"', ':'] r with _ | v
      · simp
      · simp [json_escape, he]
        omega

theorem no_text_tail5 (s r : List Char) :
    is_pre ['"', ':', '"'] (json_escape s ++ '"' :: ',' :: r) = false := by
  cases s with
  | nil =>
    rw [show json_escape [] = [] from rfl, List.nil_append, is_pre_cons_eq]
    exact is_pre_cons_of_ne (by decide) _ _
  | cons c s' =>
    show is_pre ['"', ':', '"'] (esc_char c ++ json_escape s' ++ '"' :: ',' :: r) = false
    rcases esc_char_eq c with ⟨he, hc⟩ | ⟨he, hc⟩ | ⟨he, hc⟩ | ⟨he, hc⟩ | ⟨he, hc⟩ |
        ⟨he, hc1, hc2, hc3, hc4, hc5⟩ <;> rw [he] <;>
      simp only [List.cons_append, List.nil_append, List.append_assoc]
    · exact is_pre_cons_of_ne (by decide) _ _
    · exact is_pre_cons_of_ne (by decide) _ _
    · exact is_pre_cons_of_ne (by decide) _ _
    · exact is_pre_cons_of_ne (by decide) _ _
    · exact is_pre_cons_of_ne (by decide) _ _
    · exact is_pre_cons_of_ne (Ne.symm hc1) _ _

theorem no_text_tail4 (s r : List Char) :
    is_pre ['t', '"', ':', '"'] (json_escape s ++ '"' :: ',' :: r) = false := by
  cases s with
  | nil =>
    rw [show json_escape [] = [] from rfl, List.nil_append]
    exact is_pre_cons_of_ne (by decide) _ _
  | cons c s' =>
    show is_pre ['t', '"', ':', '"'] (esc_char c ++ json_escape s' ++ '"' :: ',' :: r) = false
    rcases esc_char_eq c with ⟨he, hc⟩ | ⟨he, hc⟩ | ⟨he, hc⟩ | ⟨he, hc⟩ | ⟨he, hc⟩ |
        ⟨he, hc1, hc2, hc3, hc4, hc5⟩ <;> rw [he] <;>
      simp only [List.cons_append, List.nil_append, List.append_assoc]
    · exact is_pre_cons_of_ne (by decide) _ _
    · exact is_pre_cons_of_ne (by decide) _ _
    · exact is_pre_cons_of_ne (by decide) _ _
    · exact is_pre_cons_of_ne (by decide) _ _
    · exact is_pre_cons_of_ne (by decide) _ _
    · by_cases hl : c = 't'
      · rw [hl, is_pre_cons_eq]
        exact no_text_tail5 s' r
      · exact is_pre_cons_of_ne (Ne.symm hl) _ _

theorem no_text_tail3 (s r : List Char) :
    is_pre ['x', 't', '"', ':', '"'] (json_escape s ++ '"' :: ',' :: r) = false := by
  cases s with
  | nil =>
    rw [show json_escape [] = [] from rfl, List.nil_append]
    exact is_pre_cons_of_ne (by decide) _ _
  | cons c s' =>
    show is_pre ['x', 't', '"', ':', '"'] (esc_char c ++ json_escape s' ++ '"' :: ',' :: r) = false
    rcases esc_char_eq c with ⟨he, hc⟩ | ⟨he, hc⟩ | ⟨he, hc⟩ | ⟨he, hc⟩ | ⟨he, hc⟩ |
        ⟨he, hc1, hc2, hc3, hc4, hc5⟩ <;> rw [he] <;>
      simp only [List.cons_append, List.nil_append, List.append_assoc]
    · exact is_pre_cons_of_ne (by decide) _ _
    · exact is_pre_cons_of_ne (by decide) _ _
    · exact is_pre_cons_of_ne (by decide) _ _
    · exact is_pre_cons_of_ne (by decide) _ _
    · exact is_pre_cons_of_ne (by decide) _ _
    · by_cases hl : c = 'x'
      · rw [hl, is_pre_cons_eq]
        exact no_text_tail4 s' r
      · exact is_pre_cons_of_ne (Ne.symm hl) _ _

theorem no_text_tail2 (s r : List Char) :
    is_pre ['e', 'x', 't', '"', ':', '"'] (json_escape s ++ '"' :: ',' :: r) = false := by
  cases s with
  | nil =>
    rw [show json_escape [] = [] from rfl, List.nil_append]
    exact is_pre_cons_of_ne (by decide) _ _
  | cons c s' =>
    show is_pre ['e', 'x', 't', '"', ':', '"'] (esc_char c ++ json_escape s' ++ '"' :: ',' :: r) = false
    rcases esc_char_eq c with ⟨he, hc⟩ | ⟨he, hc⟩ | ⟨he, hc⟩ | ⟨he, hc⟩ | ⟨he, hc⟩ |
        ⟨he, hc1, hc2, hc3, hc4, hc5⟩ <;> rw [he] <;>
      simp only [List.cons_append, List.nil_append, List.append_assoc]
    · exact is_pre_cons_of_ne (by decide) _ _
    · exact is_pre_cons_of_ne (by decide) _ _
    · exact is_pre_cons_of_ne (by decide) _ _
    · exact is_pre_cons_of_ne (by decide) _ _
    · exact is_pre_cons_of_ne (by decide) _ _
    · by_cases hl : c = 'e'
      · rw [hl, is_pre_cons_eq]
        exact no_text_tail3 s' r
      · exact is_pre_cons_of_ne (Ne.symm hl) _ _

theorem no_text_tail1 (s r : List Char) :
    is_pre ['t', 'e', 'x', 't', '"', ':', '"'] (json_escape s ++ '"' :: ',' :: r) = false := by
  cases s with
  | nil =>
    rw [show json_escape [] = [] from rfl, List.nil_append]
    exact is_pre_cons_of_ne (by decide) _ _
  | cons c s' =>
    show is_pre ['t', 'e', 'x', 't', '"', ':', '"'] (esc_char c ++ json_escape s' ++ '"' :: ',' :: r) = false
    rcases esc_char_eq c with ⟨he, hc⟩ | ⟨he, hc⟩ | ⟨he, hc⟩ | ⟨he, hc⟩ | ⟨he, hc⟩ |
        ⟨he, hc1, hc2, hc3, hc4, hc5⟩ <;> rw [he] <;>
      simp only [List.cons_append, List.nil_append, List.append_assoc]
    · exact is_pre_cons_of_ne (by decide) _ _
    · exact is_pre_cons_of_ne (by decide) _ _
    · exact is_pre_cons_of_ne (by decide) _ _
    · exact is_pre_cons_of_ne (by decide) _ _
    · exact is_pre_cons_of_ne (by decide) _ _
    · by_cases hl : c = 't'
      · rw [hl, is_pre_cons_eq]
        exact no_text_tail2 s' r
      · exact is_pre_cons_of_ne (Ne.symm hl) _ _

theorem find_skip_escape_text (s r : List Char) :
    find_sub ['"', 't', 'e', 'x', 't', '"', ':', '"'] (json_escape s ++ '"' :: ',' :: r)
      = (find_sub ['"', 't', 'e', 'x', 't', '"', ':', '"'] r).map (· + ((json_escape s).length + 2)) := by
  induction s with
  | nil =>
    rw [show json_escape [] = [] from rfl, List.nil_append]
    rw [find_sub_cons_skip (by rw [is_pre_cons_eq]; exact is_pre_cons_of_ne (by decide) _ _),
      find_sub_cons_skip (is_pre_cons_of_ne (by decide) _ _)]
    rcases find_sub ['"', 't', 'e', 'x', 't', '"', ':', '"'] r with _ | v
    · simp
    · simp
  | cons c s' ih =>
    show find_sub _ (esc_char c ++ json_escape s' ++ '"' :: ',' :: r) = _
    rcases esc_char_eq c with ⟨he, hc⟩ | ⟨he, hc⟩ | ⟨he, hc⟩ | ⟨he, hc⟩ | ⟨he, hc⟩ |
        ⟨he, hc1, hc2, hc3, hc4, hc5⟩ <;> rw [he] <;>
      simp only [List.cons_append, List.nil_append, List.append_assoc]
    · rw [find_sub_cons_skip (is_pre_cons_of_ne (by decide) _ _),
        find_sub_cons_skip (by rw [is_pre_cons_eq]; exact no_text_tail1 s' r), ih]
      rcases find_sub ['"', 't', 'e', 'x', 't', '"', ':', '"'] r with _ | v
      · simp
      · simp [json_escape, he]
        omega
    · rw [find_sub_cons_skip (is_pre_cons_of_ne (by decide) _ _),
        find_sub_cons_skip (is_pre_cons_of_ne (by decide) _ _), ih]
      rcases find_sub ['"', 't', 'e', 'x', 't', '"', ':', '"'] r with _ | v
      · simp
      · simp [json_escape, he]
        omega
    · rw [find_sub_cons_skip (is_pre_cons_of_ne (by decide) _ _),
        find_sub_cons_skip (is_pre_cons_of_ne (by decide) _ _), ih]
      rcases find_sub ['"', 't', 'e', 'x', 't', '"', ':', '"'] r with _ | v
      · simp
      · simp [json_escape, he]
        omega
    · rw [find_sub_cons_skip (is_pre_cons_of_ne (by decide) _ _),
        find_sub_cons_skip (is_pre_cons_of_ne (by decide) _ _), ih]
      rcases find_sub ['"', 't', 'e', 'x', 't', '"', ':', '"'] r with _ | v
      · simp
      · simp [json_escape, he]
        omega
    · rw [find_sub_cons_skip (is_pre_cons_of_ne (by decide) _ _),
        find_sub_cons_skip (is_pre_cons_of_ne (by decide) _ _), ih]
      rcases find_sub ['"', 't', 'e', 'x', 't', '"', ':', '"'] r with _ | v
      · simp
      · simp [json_escape, he]
        omega
    · rw [find_sub_cons_skip (is_pre_cons_of_ne (Ne.symm hc1) _ _), ih]
      rcases find_sub ['"', 't', 'e', 'x', 't', '"', ':', '"'] r with _ | v
      · simp
      · simp [json_escape, he]
        omega

theorem to_int64_range (x : Int) : -(2 ^ 63) ≤ to_int64 x ∧ to_int64 x < 2 ^ 63 := by
  unfold to_int64
  omega

theorem to_int64_emod (x : Int) : to_int64 x % 2 ^ 64 = x % 2 ^ 64 := by
  unfold to_int64
  omega

theorem to_int64_of_range {x : Int} (h1 : -(2 ^ 63) ≤ x) (h2 : x < 2 ^ 63) :
    to_int64 x = x := by
  unfold to_int64
  omega

theorem digit_char_toNat {d : Nat} (h : d < 10) : (digit_char d).toNat = 48 + d := by
  interval_cases d <;> rfl

theorem digit_char_bounds {d : Nat} (h : d < 10) :
    '0' ≤ digit_char d ∧ digit_char d ≤ '9' := by
  interval_cases d <;> exact ⟨by decide, by decide⟩

theorem nat_to_dec_digits (n : Nat) : ∀ c ∈ nat_to_dec n, '0' ≤ c ∧ c ≤ '9' := by
  intro c hc
  unfold nat_to_dec at hc
  split at hc
  · rcases List.mem_singleton.mp hc with rfl
    exact ⟨by decide, by decide⟩
  · rw [List.mem_reverse] at hc
    obtain ⟨d, hd, rfl⟩ := List.mem_map.mp hc
    exact digit_char_bounds (Nat.digits_lt_base (by norm_num) hd)

theorem nat_to_dec_ne_nil (n : Nat) : nat_to_dec n ≠ [] := by
  unfold nat_to_dec
  split
  · simp
  · simp
    rename_i h
    intro hcon
    exact h (Nat.digits_eq_nil_iff_eq_zero.mp hcon)

theorem digits_loop_stop {stop : Char} (rest : List Char) (acc : Int)
    (hstop : ¬('0' ≤ stop ∧ stop ≤ '9')) :
    digits_loop (stop :: rest) acc = acc := by
  unfold digits_loop
  rw [if_neg hstop]

theorem digits_loop_all (ds : List Char) (stop : Char) (rest : List Char) (acc : Int)
    (hds : ∀ c ∈ ds, '0' ≤ c ∧ c ≤ '9') (hstop : ¬('0' ≤ stop ∧ stop ≤ '9')) :
    digits_loop (ds ++ stop :: rest) acc = dec_fold ds acc := by
  induction ds generalizing acc with
  | nil => simp [dec_fold, digits_loop_stop rest acc hstop]
  | cons c ds ih =>
    rw [List.cons_append]
    unfold digits_loop
    rw [if_pos (hds c (List.mem_cons_self c ds))]
    rw [ih _ (fun x hx => hds x (List.mem_cons_of_mem c hx))]
    rfl

theorem digit_val_digit_char {d : Nat} (h : d < 10) : digit_val (digit_char d) = (d : Int) := by
  unfold digit_val
  rw [digit_char_toNat h]
  push_cast
  ring

theorem dec_fold_append (ds : List Char) (c : Char) (acc : Int) :
    dec_fold (ds ++ [c]) acc = to_int64 (dec_fold ds acc * 10 + digit_val c) := by
  unfold dec_fold
  rw [List.foldl_append]
  rfl

theorem dec_fold_rev (L : List Nat) (acc : Int) (hL : ∀ d ∈ L, d < 10)
    (hacc : -(2 ^ 63) ≤ acc ∧ acc < 2 ^ 63) :
    (-(2 ^ 63) ≤ dec_fold ((L.map digit_char).reverse) acc
      ∧ dec_fold ((L.map digit_char).reverse) acc < 2 ^ 63)
    ∧ dec_fold ((L.map digit_char).reverse) acc % 2 ^ 64
        = (acc * 10 ^ L.length + (Nat.ofDigits 10 L : Int)) % 2 ^ 64 := by
  induction L generalizing acc with
  | nil =>
    refine ⟨hacc, ?_⟩
    simp [dec_fold, Nat.ofDigits]
  | cons d L ih =>
    have hrev : ((d :: L).map digit_char).reverse = (L.map digit_char).reverse ++ [digit_char d] := by
      simp
    rw [hrev, dec_fold_append]
    have hd : d < 10 := hL d (List.mem_cons_self d L)
    obtain ⟨ihr, ihm⟩ := ih acc (fun x hx => hL x (List.mem_cons_of_mem d hx)) hacc
    refine ⟨to_int64_range _, ?_⟩
    rw [to_int64_emod, digit_val_digit_char hd]
    have hmul : (dec_fold ((L.map digit_char).reverse) acc * 10 + (d : Int)) % 2 ^ 64
        = ((acc * 10 ^ L.length + (Nat.ofDigits 10 L : Int)) * 10 + (d : Int)) % 2 ^ 64 := by
      have h1 : dec_fold ((L.map digit_char).reverse) acc * 10 % 2 ^ 64
          = (acc * 10 ^ L.length + (Nat.ofDigits 10 L : Int)) * 10 % 2 ^ 64 :=
        Int.ModEq.mul_right 10 ihm
      omega
    rw [hmul]
    congr 1
    rw [show (Nat.ofDigits (10 : ℤ) (d :: L)) = (d : ℤ) + 10 * Nat.ofDigits (10 : ℤ) L from rfl]
    simp only [List.length_cons, pow_succ]
    ring

theorem dec_fold_nat (n : Nat) (hn : n < 2 ^ 64) :
    (-(2 ^ 63) ≤ dec_fold (nat_to_dec n) 0 ∧ dec_fold (nat_to_dec n) 0 < 2 ^ 63)
    ∧ dec_fold (nat_to_dec n) 0 % 2 ^ 64 = (n : Int) % 2 ^ 64 := by
  by_cases h0 : n = 0
  · subst h0
    constructor
    · constructor <;> decide
    · decide
  · have : nat_to_dec n = ((Nat.digits 10 n).map digit_char).reverse := by
      unfold nat_to_dec
      rw [if_neg h0]
    rw [this]
    have := dec_fold_rev (Nat.digits 10 n) 0 (fun d hd => Nat.digits_lt_base (by norm_num) hd)
      ⟨by norm_num, by norm_num⟩
    rw [show ((10 : ℤ) : ℤ) = ((10 : ℕ) : ℤ) by norm_num, ← Nat.coe_int_ofDigits,
      Nat.ofDigits_digits] at this
    simpa using this

theorem int64_eq_of_emod {a b : Int} (ha1 : -(2 ^ 63) ≤ a) (ha2 : a < 2 ^ 63)
    (hb1 : -(2 ^ 63) ≤ b) (hb2 : b < 2 ^ 63) (h : a % 2 ^ 64 = b % 2 ^ 64) : a = b := by
  omega

theorem char_digit_not_ws {d : Char} (hd : '0' ≤ d ∧ d ≤ '9') :
    (d == ' ' || d == '\t') = false := by
  rcases hd with ⟨h1, h2⟩
  have : 48 ≤ d.toNat ∧ d.toNat ≤ 57 := by
    constructor
    · exact h1
    · exact h2
  simp only [Bool.or_eq_false_iff, beq_eq_false_iff_ne]
  constructor
  · intro hcon
    rw [hcon] at this
    simp at this
  · intro hcon
    rw [hcon] at this
    simp at this

theorem parse_int_after_nonneg (n : Nat) (stop : Char) (rest : List Char)
    (hstop : ¬('0' ≤ stop ∧ stop ≤ '9')) :
    parse_int_after (nat_to_dec n ++ stop :: rest) = dec_fold (nat_to_dec n) 0 := by
  obtain ⟨d, ds, hds⟩ : ∃ d ds, nat_to_dec n = d :: ds := by
    rcases h : nat_to_dec n with _ | ⟨d, ds⟩
    · exact absurd h (nat_to_dec_ne_nil n)
    · exact ⟨d, ds, rfl⟩
  have hd : '0' ≤ d ∧ d ≤ '9' := nat_to_dec_digits n d (by rw [hds]; exact List.mem_cons_self _ _)
  unfold parse_int_after
  rw [hds, List.cons_append, List.dropWhile_cons, char_digit_not_ws hd]
  simp only [Bool.false_eq_true, if_false]
  split
  · rename_i rest' heq
    rw [List.cons.injEq] at heq
    rw [heq.1] at hd
    exact absurd hd.1 (by decide)
  · rw [← List.cons_append, ← hds]
    exact digits_loop_all _ _ _ _ (nat_to_dec_digits n) hstop

theorem parse_int_after_neg_minus (m : Nat) (stop : Char) (rest : List Char)
    (hstop : ¬('0' ≤ stop ∧ stop ≤ '9')) :
    parse_int_after ('-' :: nat_to_dec m ++ stop :: rest)
      = to_int64 (- dec_fold (nat_to_dec m) 0) := by
  unfold parse_int_after
  rw [List.cons_append, List.dropWhile_cons]
  have hm : (('-' : Char) == ' ' || ('-' : Char) == '\t') = false := by decide
  rw [hm]
  simp only [Bool.false_eq_true, if_false]
  rw [digits_loop_all _ _ _ _ (nat_to_dec_digits m) hstop]

theorem to_uint64_parse_nat (n : Nat) (stop : Char) (rest : List Char)
    (hn : n < 2 ^ 64) (hstop : ¬('0' ≤ stop ∧ stop ≤ '9')) :
    to_uint64 (parse_int_after (nat_to_dec n ++ stop :: rest)) = n := by
  rw [parse_int_after_nonneg n stop rest hstop]
  obtain ⟨⟨hr1, hr2⟩, hmod⟩ := dec_fold_nat n hn
  unfold to_uint64
  have hcast : ((n : Int) : Int) < 2 ^ 64 := by exact_mod_cast hn
  omega

theorem parse_int_after_int (i : Int) (stop : Char) (rest : List Char)
    (h1 : -(2 ^ 63) ≤ i) (h2 : i < 2 ^ 63) (hstop : ¬('0' ≤ stop ∧ stop ≤ '9')) :
    parse_int_after (int_to_dec i ++ stop :: rest) = i := by
  by_cases hneg : i < 0
  · have hdec : int_to_dec i = '-' :: nat_to_dec (-i).toNat := by
      unfold int_to_dec
      rw [if_pos hneg]
    rw [hdec, parse_int_after_neg_minus _ _ _ hstop]
    have hm64 : (-i).toNat < 2 ^ 64 := by omega
    obtain ⟨⟨hr1, hr2⟩, hmod⟩ := dec_fold_nat (-i).toNat hm64
    have hcast : (((-i).toNat : Nat) : Int) = -i := by omega
    refine int64_eq_of_emod (to_int64_range _).1 (to_int64_range _).2 h1 h2 ?_
    rw [to_int64_emod]
    omega
  · have hdec : int_to_dec i = nat_to_dec i.toNat := by
      unfold int_to_dec
      rw [if_neg hneg]
    rw [hdec, parse_int_after_nonneg _ _ _ hstop]
    have hm64 : i.toNat < 2 ^ 64 := by omega
    obtain ⟨⟨hr1, hr2⟩, hmod⟩ := dec_fold_nat i.toNat hm64
    have hcast : ((i.toNat : Nat) : Int) = i := by omega
    refine int64_eq_of_emod hr1 hr2 h1 h2 ?_
    omega

theorem find_sub_skip_noquote (N' ds rest : List Char) (hds : ∀ c ∈ ds, c ≠ '"') :
    find_sub ('"' :: N') (ds ++ rest) = (find_sub ('"' :: N') rest).map (· + ds.length) := by
  induction ds with
  | nil => simp
  | cons c t ih =>
    rw [List.cons_append,
      find_sub_cons_skip (is_pre_cons_of_ne (Ne.symm (hds c (List.mem_cons_self c t))) _ _),
      ih (fun x hx => hds x (List.mem_cons_of_mem c hx))]
    rcases find_sub ('"' :: N') rest with _ | v
    · simp
    · simp
      omega

theorem nat_to_dec_ne_quote (n : Nat) : ∀ c ∈ nat_to_dec n, c ≠ '"' := by
  intro c hc
  have := nat_to_dec_digits n c hc
  intro hcon
  rw [hcon] at this
  exact absurd this.1 (by decide)

theorem int_to_dec_ne_quote (i : Int) : ∀ c ∈ int_to_dec i, c ≠ '"' := by
  intro c hc
  unfold int_to_dec at hc
  split at hc
  · rcases List.mem_cons.mp hc with rfl | hc'
    · decide
    · exact nat_to_dec_ne_quote _ c hc'
  · exact nat_to_dec_ne_quote _ c hc

theorem extract_sender (seq : Nat) (sender : List Char) (ts : Int) (text : List Char) :
    extract_json_string (serialize_chat_line seq sender ts text) sender_key = sender := by
  have hfind : find_sub (str_key_needle sender_key) (serialize_chat_line seq sender ts text)
      = some ((nat_to_dec seq).length + 8) := by
    unfold serialize_chat_line
    simp only [int_key_needle, str_key_needle, seq_key, sender_key, ts_key, text_key,
      List.cons_append, List.nil_append, List.append_assoc]
    rw [find_sub_cons_skip (is_pre_cons_of_ne (by decide) _ _),
      find_sub_cons_skip (by simp [is_pre]),
      find_sub_cons_skip (is_pre_cons_of_ne (by decide) _ _),
      find_sub_cons_skip (is_pre_cons_of_ne (by decide) _ _),
      find_sub_cons_skip (is_pre_cons_of_ne (by decide) _ _),
      find_sub_cons_skip (by simp [is_pre]),
      find_sub_cons_skip (is_pre_cons_of_ne (by decide) _ _),
      find_sub_skip_noquote _ _ _ (nat_to_dec_ne_quote seq),
      find_sub_cons_skip (is_pre_cons_of_ne (by decide) _ _),
      find_sub_of_is_pre (by simp [is_pre])]
    simp
    omega
  unfold extract_json_string
  rw [hfind]
  show json_unescape (scan_string_value ((serialize_chat_line seq sender ts text).drop
    ((nat_to_dec seq).length + 8 + (str_key_needle sender_key).length))) = sender
  have hsplit : serialize_chat_line seq sender ts text
      = (lbrace :: int_key_needle seq_key ++ nat_to_dec seq ++ ',' :: str_key_needle sender_key)
        ++ (json_escape sender ++ '"' :: (',' :: (int_key_needle ts_key ++ (int_to_dec ts
          ++ ',' :: (str_key_needle text_key ++ (json_escape text ++ ['"', rbrace])))))) := by
    unfold serialize_chat_line
    simp [List.cons_append, List.append_assoc]
  rw [hsplit, List.drop_left' (by
    simp [int_key_needle, str_key_needle, seq_key, sender_key]
    try omega)]
  rw [show json_escape sender ++ '"' :: (',' :: (int_key_needle ts_key ++ (int_to_dec ts
      ++ ',' :: (str_key_needle text_key ++ (json_escape text ++ ['"', rbrace])))))
    = json_escape sender ++ '"' :: ((',' :: (int_key_needle ts_key ++ (int_to_dec ts
      ++ ',' :: (str_key_needle text_key ++ (json_escape text ++ ['"', rbrace])))))) from rfl]
  rw [scan_string_value_escape, json_unescape_escape]

theorem extract_text (seq : Nat) (sender : List Char) (ts : Int) (text : List Char) :
    extract_json_string (serialize_chat_line seq sender ts text) text_key = text := by
  have hfind : find_sub (str_key_needle text_key) (serialize_chat_line seq sender ts text)
      = some ((nat_to_dec seq).length + (json_escape sender).length
          + (int_to_dec ts).length + 26) := by
    unfold serialize_chat_line
    simp only [int_key_needle, str_key_needle, seq_key, sender_key, ts_key, text_key,
      List.cons_append, List.nil_append, List.append_assoc]
    rw [find_sub_cons_skip (is_pre_cons_of_ne (by decide) _ _),
      find_sub_cons_skip (by simp [is_pre]),
      find_sub_cons_skip (is_pre_cons_of_ne (by decide) _ _),
      find_sub_cons_skip (is_pre_cons_of_ne (by decide) _ _),
      find_sub_cons_skip (is_pre_cons_of_ne (by decide) _ _),
      find_sub_cons_skip (by simp [is_pre]),
      find_sub_cons_skip (is_pre_cons_of_ne (by decide) _ _),
      find_sub_skip_noquote _ _ _ (nat_to_dec_ne_quote seq),
      find_sub_cons_skip (is_pre_cons_of_ne (by decide) _ _),
      find_sub_cons_skip (by simp [is_pre]),
      find_sub_cons_skip (is_pre_cons_of_ne (by decide) _ _),
      find_sub_cons_skip (is_pre_cons_of_ne (by decide) _ _),
      find_sub_cons_skip (is_pre_cons_of_ne (by decide) _ _),
      find_sub_cons_skip (is_pre_cons_of_ne (by decide) _ _),
      find_sub_cons_skip (is_pre_cons_of_ne (by decide) _ _),
      find_sub_cons_skip (is_pre_cons_of_ne (by decide) _ _),
      find_sub_cons_skip (by simp [is_pre]),
      find_sub_cons_skip (is_pre_cons_of_ne (by decide) _ _),
      find_sub_cons_skip (by rw [is_pre_cons_eq]; exact no_text_tail1 sender _),
      find_skip_escape_text sender _,
      find_sub_cons_skip (by simp [is_pre]),
      find_sub_cons_skip (is_pre_cons_of_ne (by decide) _ _),
      find_sub_cons_skip (is_pre_cons_of_ne (by decide) _ _),
      find_sub_cons_skip (by simp [is_pre]),
      find_sub_cons_skip (is_pre_cons_of_ne (by decide) _ _),
      find_sub_skip_noquote _ _ _ (int_to_dec_ne_quote ts),
      find_sub_cons_skip (is_pre_cons_of_ne (by decide) _ _),
      find_sub_of_is_pre (by simp [is_pre])]
    simp
    try omega
  unfold extract_json_string
  rw [hfind]
  show json_unescape (scan_string_value ((serialize_chat_line seq sender ts text).drop
    ((nat_to_dec seq).length + (json_escape sender).length + (int_to_dec ts).length + 26
      + (str_key_needle text_key).length))) = text
  have hsplit : serialize_chat_line seq sender ts text
      = (lbrace :: int_key_needle seq_key ++ nat_to_dec seq ++ ',' :: str_key_needle sender_key
          ++ json_escape sender ++ '"' :: ',' :: int_key_needle ts_key ++ int_to_dec ts
          ++ ',' :: str_key_needle text_key)
        ++ (json_escape text ++ '"' :: [rbrace]) := by
    unfold serialize_chat_line
    simp [List.cons_append, List.append_assoc]
  rw [hsplit, List.drop_left' (by
    simp [int_key_needle, str_key_needle, seq_key, sender_key, ts_key, text_key]
    try omega)]
  rw [scan_string_value_escape, json_unescape_escape]

theorem extract_ts (seq : Nat) (sender : List Char) (ts : Int) (text : List Char)
    (h1 : -(2 ^ 63) ≤ ts) (h2 : ts < 2 ^ 63) :
    extract_json_int (serialize_chat_line seq sender ts text) ts_key = ts := by
  have hfind : find_sub (int_key_needle ts_key) (serialize_chat_line seq sender ts text)
      = some ((nat_to_dec seq).length + (json_escape sender).length + 20) := by
    unfold serialize_chat_line
    simp only [int_key_needle, str_key_needle, seq_key, sender_key, ts_key, text_key,
      List.cons_append, List.nil_append, List.append_assoc]
    rw [find_sub_cons_skip (is_pre_cons_of_ne (by decide) _ _),
      find_sub_cons_skip (by simp [is_pre]),
      find_sub_cons_skip (is_pre_cons_of_ne (by decide) _ _),
      find_sub_cons_skip (is_pre_cons_of_ne (by decide) _ _),
      find_sub_cons_skip (is_pre_cons_of_ne (by decide) _ _),
      find_sub_cons_skip (by simp [is_pre]),
      find_sub_cons_skip (is_pre_cons_of_ne (by decide) _ _),
      find_sub_skip_noquote _ _ _ (nat_to_dec_ne_quote seq),
      find_sub_cons_skip (is_pre_cons_of_ne (by decide) _ _),
      find_sub_cons_skip (by simp [is_pre]),
      find_sub_cons_skip (is_pre_cons_of_ne (by decide) _ _),
      find_sub_cons_skip (is_pre_cons_of_ne (by decide) _ _),
      find_sub_cons_skip (is_pre_cons_of_ne (by decide) _ _),
      find_sub_cons_skip (is_pre_cons_of_ne (by decide) _ _),
      find_sub_cons_skip (is_pre_cons_of_ne (by decide) _ _),
      find_sub_cons_skip (is_pre_cons_of_ne (by decide) _ _),
      find_sub_cons_skip (by simp [is_pre]),
      find_sub_cons_skip (is_pre_cons_of_ne (by decide) _ _),
      find_sub_cons_skip (by rw [is_pre_cons_eq]; exact no_ts_tail1 sender _),
      find_skip_escape_ts sender _,
      find_sub_of_is_pre (by simp [is_pre])]
    simp
    try omega
  unfold extract_json_int
  rw [hfind]
  show parse_int_after ((serialize_chat_line seq sender ts text).drop
    ((nat_to_dec seq).length + (json_escape sender).length + 20
      + (int_key_needle ts_key).length)) = ts
  have hsplit : serialize_chat_line seq sender ts text
      = (lbrace :: int_key_needle seq_key ++ nat_to_dec seq ++ ',' :: str_key_needle sender_key
          ++ json_escape sender ++ '"' :: ',' :: int_key_needle ts_key)
        ++ (int_to_dec ts ++ ',' :: (str_key_needle text_key
            ++ (json_escape text ++ ['"', rbrace]))) := by
    unfold serialize_chat_line
    simp [List.cons_append, List.append_assoc]
  rw [hsplit, List.drop_left' (by
    simp [int_key_needle, str_key_needle, seq_key, sender_key, ts_key]
    try omega)]
  exact parse_int_after_int ts ',' _ h1 h2 (by decide)

theorem extract_seq (seq : Nat) (sender : List Char) (ts : Int) (text : List Char)
    (hseq : seq < 2 ^ 64) :
    to_uint64 (extract_json_int (serialize_chat_line seq sender ts text) seq_key) = seq := by
  have hfind : find_sub (int_key_needle seq_key) (serialize_chat_line seq sender ts text)
      = some 1 := by
    unfold serialize_chat_line
    simp only [int_key_needle, str_key_needle, seq_key, sender_key, ts_key, text_key,
      List.cons_append, List.nil_append, List.append_assoc]
    rw [find_sub_cons_skip (is_pre_cons_of_ne (by decide) _ _),
      find_sub_of_is_pre (by simp [is_pre])]
    simp
  unfold extract_json_int
  rw [hfind]
  show to_uint64 (parse_int_after ((serialize_chat_line seq sender ts text).drop
    (1 + (int_key_needle seq_key).length))) = seq
  have hsplit : serialize_chat_line seq sender ts text
      = (lbrace :: int_key_needle seq_key)
        ++ (nat_to_dec seq ++ ',' :: (str_key_needle sender_key ++ (json_escape sender
            ++ '"' :: ',' :: (int_key_needle ts_key ++ (int_to_dec ts
              ++ ',' :: (str_key_needle text_key
                ++ (json_escape text ++ ['"', rbrace]))))))) := by
    unfold serialize_chat_line
    simp [List.cons_append, List.append_assoc]
  rw [hsplit, List.drop_left' (by simp [int_key_needle, seq_key])]
  exact to_uint64_parse_nat seq ',' _ hseq (by decide)

/-- C7: for every chat record with `seq ≥ 1` (a `uint64` value) and an `int64`
timestamp, and arbitrary sender and text strings — newlines, tabs, carriage
returns, double quotes and backslashes included — parsing the serialized line
returns a record equal to it in `seq`, `sender`, `ts` and `text`, with
`valid = true`. -/
theorem parse_serialize_chat_line (seq : Nat) (sender : List Char) (ts : Int)
    (text : List Char) (h0 : 1 ≤ seq) (hseq : seq < 2 ^ 64)
    (h1 : -(2 ^ 63) ≤ ts) (h2 : ts < 2 ^ 63) :
    parse_chat_line (serialize_chat_line seq sender ts text)
      = ⟨seq, sender, ts, text, true⟩ := by
  have hhead : (serialize_chat_line seq sender ts text).head? = some lbrace := by
    unfold serialize_chat_line
    rfl
  unfold parse_chat_line
  rw [if_neg (by rw [hhead]; simp)]
  have e1 := extract_seq seq sender ts text hseq
  have e2 := extract_sender seq sender ts text
  have e3 := extract_ts seq sender ts text h1 h2
  have e4 := extract_text seq sender ts text
  rw [ChatLine.mk.injEq]
  refine ⟨e1, e2, e3, e4, ?_⟩
  rw [e1]
  simp
  omega

/-- C7 witness: a concrete record whose sender and text hold a newline, a tab,
a double quote and a backslash round-trips. -/
theorem parse_serialize_chat_line_witness :
    parse_chat_line (serialize_chat_line 3 ['a', '\n', '\t'] (-7) ['"', '\\', 'b'])
      = ⟨3, ['a', '\n', '\t'], -7, ['"', '\\', 'b'], true⟩ :=
  parse_serialize_chat_line 3 ['a', '\n', '\t'] (-7) ['"', '\\', 'b']
    (by norm_num) (by norm_num) (by norm_num) (by norm_num)

/-- C8 counterexample: the line `\x7b"seq":5\x7d` is recognized (it starts with
a brace and carries a positive seq) but is missing the required fields
`sender`, `ts` and `text`; the claim says it must be treated as malformed and
skipped, yet `parse_chat_line` marks it valid — the missing strings parse as
empty and the missing timestamp as 0 — and `load_chat_history` keeps it. -/
theorem parse_chat_line_missing_fields_not_malformed :
    parse_chat_line [lbrace, '"', 's', 'e', 'q', '"', ':', '5', rbrace]
      = ⟨5, [], 0, [], true⟩
    ∧ load_chat_history [[lbrace, '"', 's', 'e', 'q', '"', ':', '5', rbrace]]
      = [⟨5, [], 0, [], true⟩] := by
  constructor
  · decide
  · decide

/-- C8 amended: when loading the chat history, an empty line is skipped and a
parsed line is kept iff its parse is valid; a line is valid iff it starts with
a brace and its seq field parses to a nonzero value — a recognized line
missing `sender`, `ts` or `text` is NOT treated as malformed (those fields
default to empty strings and 0); only a missing or zero `seq` makes a line
malformed, and malformed lines are skipped silently. -/
theorem load_chat_history_skips_malformed (lines : List (List Char)) (line : List Char) :
    load_chat_history lines
      = (lines.filter (fun l => !l.isEmpty && (parse_chat_line l).valid)).map parse_chat_line
    ∧ ((parse_chat_line line).valid = true ↔
        line.head? = some lbrace ∧ 0 < to_uint64 (extract_json_int line seq_key)) := by
  constructor
  · induction lines with
    | nil => rfl
    | cons l rest ih =>
      by_cases he : l.isEmpty
      · rw [load_chat_history, if_pos he, ih]
        simp [he]
      · by_cases hv : (parse_chat_line l).valid
        · rw [load_chat_history, if_neg he, if_pos hv, ih]
          simp [he, hv]
        · rw [load_chat_history, if_neg he, if_neg hv, ih]
          simp [he, hv]
  · unfold parse_chat_line
    by_cases hh : line.head? = some lbrace
    · rw [if_neg (by simp [hh])]
      simp [hh]
    · rw [if_pos (by simp [hh])]
      simp [hh]

/-- C8 witness: an empty line and a braceless line are both skipped. -/
theorem load_chat_history_skips_malformed_witness :
    load_chat_history [[], ['x']]
      = (([[], ['x']].filter
          (fun l => !l.isEmpty && (parse_chat_line l).valid)).map parse_chat_line) :=
  (load_chat_history_skips_malformed [[], ['x']] []).1
